import Mathlib

/-
Verification development for the JellyGrab download controller
(src/jellygrab/downloads.py).  The per-item transfer loop
(`_download_item`, `_update_progress`, `as_progress_payload`) is embedded
as pure functions; the controller (queue, workers, slots, cancellation
set) is embedded as a total small-step transition system on an explicit
state, with blocked actions acting as no-ops.
-/

namespace JellyGrab

/-- Item lifecycle states, one per status string used in downloads.py. -/
inductive Status
  | naFila      -- "Na fila" (Queued), the dataclass default
  | baixando    -- "Baixando..." (Downloading)
  | concluido   -- "Concluido" (Completed)
  | erro        -- "Erro" (Failed)
  | cancelado   -- "Cancelado" (Cancelled)
  | jaExiste    -- "Ja existe" (AlreadyExists)
deriving DecidableEq, Repr

/-- Value held by the eta field: the initial empty string, the string
"Desconhecido" (unknown), or a rendered number of seconds. -/
inductive EtaVal
  | emptyStr
  | desconhecido
  | seconds (q : ℚ)
deriving DecidableEq, Repr

/-- The DownloadItem dataclass of downloads.py.  Byte counts are Nat,
wall-clock times and speeds are rationals, the status strings are the
Status inductive and the eta string is EtaVal. -/
structure DownloadItem where
  episode_id : String
  filename : String
  filepath : String := ""
  download_url : String := ""
  total_size : Nat := 0
  downloaded : Nat := 0
  status : Status := .naFila
  speed : ℚ := 0
  eta : EtaVal := .emptyStr
  start_time : Option ℚ := none
  last_downloaded : Nat := 0
  last_time : ℚ := 0
  show_success : Bool := true
deriving DecidableEq, Repr

/-- The dictionary returned by DownloadItem.as_progress_payload. -/
structure ProgressPayload where
  percent : ℚ
  downloaded : Nat
  total_size : Nat
  speed : ℚ
  eta : EtaVal
deriving DecidableEq, Repr

/-- DownloadItem.as_progress_payload: percent is downloaded/total*100 when
total_size is truthy (nonzero) and the float 0.0 otherwise. -/
def DownloadItem.as_progress_payload (item : DownloadItem) : ProgressPayload :=
  { percent := if item.total_size ≠ 0 then (item.downloaded : ℚ) / (item.total_size : ℚ) * 100 else 0
    downloaded := item.downloaded
    total_size := item.total_size
    speed := item.speed
    eta := item.eta }

/-- DownloadController._update_progress: rate-limited to one sample per
second; recomputes speed and eta and emits the progress payload. -/
def update_progress (item : DownloadItem) (now : ℚ) : DownloadItem × Option ProgressPayload :=
  let elapsed := now - item.last_time
  if elapsed < 1 then (item, none)
  else
    let delta : ℚ := (item.downloaded : ℚ) - (item.last_downloaded : ℚ)
    let speed := delta / elapsed / 1024 / 1024
    let etaSeconds : ℚ :=
      if 0 < speed ∧ item.total_size ≠ 0 then
        ((item.total_size : ℚ) - (item.downloaded : ℚ)) / (speed * 1024 * 1024)
      else 0
    let item2 := { item with
      speed := speed
      eta := if etaSeconds ≠ 0 then .seconds etaSeconds else .desconhecido
      last_time := now
      last_downloaded := item.downloaded }
    (item2, some item2.as_progress_payload)

/-- Python exceptions, split by whether they are RuntimeError instances
(the only class the cancellation test in downloads.py looks at). -/
inductive Exc
  | runtimeError (msg : String)
  | otherError (msg : String)
deriving DecidableEq, Repr

/-- Substring test, mirroring the Python `in` operator on strings. -/
def strContainsSub (s pat : String) : Bool := 2 ≤ (s.splitOn pat).length

/-- Message of the RuntimeError raised when a cancellation is observed
mid-transfer. -/
def cancelMsg : String := "Download cancelado pelo usuário"

/-- The test at line 212 of downloads.py: isinstance(exc, RuntimeError)
and "cancelado" in str(exc).lower(). -/
def isCancelSignal : Exc → Bool
  | .runtimeError msg => strContainsSub msg.toLower "cancelado"
  | .otherError _ => false

/-- Behaviour of one response of the Transfer Source: the content-length
header (0 when absent), the sizes of the chunks iter_content yields in
order, and an optional exception the stream raises after those chunks
instead of ending cleanly. -/
structure StreamResp where
  content_length : Nat
  chunks : List Nat
  tail : Option Exc
deriving DecidableEq, Repr

/-- Result of the chunk loop of _download_item. -/
structure RunState where
  item : DownloadItem
  downloaded : Nat
  writes : List Nat
  reads : List Nat
  trace : List Nat
  raised : Option Exc
deriving Repr

/-- The chunk loop of _download_item (lines 187-199): before handling a
yielded chunk the cancellation set is consulted (`cancelAt k` says whether
the item id is in the set at that check); empty chunks are skipped;
otherwise the chunk is written, the local counter and item.downloaded are
updated and _update_progress runs.  `reads` records the chunk size used
for each yielded chunk, `trace` the successive values of item.downloaded,
`writes` the sizes written to the file. -/
def runChunks (chunkSize : Nat) (clock : Nat → ℚ) (cancelAt : Nat → Bool) :
    DownloadItem → Nat → Nat → List Nat → RunState
  | item, downloaded, _, [] => ⟨item, downloaded, [], [], [], none⟩
  | item, downloaded, k, c :: rest =>
    if cancelAt k then
      ⟨item, downloaded, [], [chunkSize], [], some (.runtimeError cancelMsg)⟩
    else if c = 0 then
      let rs := runChunks chunkSize clock cancelAt item downloaded (k + 1) rest
      { rs with reads := chunkSize :: rs.reads }
    else
      let downloaded2 := downloaded + c
      let item2 := (update_progress { item with downloaded := downloaded2 } (clock k)).1
      let rs := runChunks chunkSize clock cancelAt item2 downloaded2 (k + 1) rest
      { rs with writes := c :: rs.writes, reads := chunkSize :: rs.reads,
                trace := downloaded2 :: rs.trace }

/-- Result of one _download_item execution: the final item, whether the
destination file was opened, the writes to it, the chunk sizes used, the
successive values of item.downloaded, the argument of the on_error
callback when it fired, and the statuses emitted. -/
structure ExecResult where
  item : DownloadItem
  file_opened : Bool
  writes : List Nat
  reads : List Nat
  downloadedTrace : List Nat
  error_callback : Option Exc
  statuses : List Status
deriving Repr

/-- The except branch of _download_item (lines 211-218): classify the
exception by the RuntimeError/"cancelado" test, emit the status, and fire
on_error unless the status is Cancelado. -/
def handle_exc (onErrorSet : Bool) (item : DownloadItem) (e : Exc) : DownloadItem × Option Exc :=
  let item2 := { item with status := if isCancelSignal e then .cancelado else .erro }
  (item2, if onErrorSet ∧ item2.status ≠ .cancelado then some e else none)

/-- The size the header establishes for the item: the item size when
truthy, else the content-length header (lines 179-181). -/
def established_total (item : DownloadItem) (r : StreamResp) : Nat :=
  if item.total_size ≠ 0 then item.total_size else r.content_length

/-- Lines 171-174 of _download_item: mark the item Downloading and reset
the timing bookkeeping. -/
def dl_start_item (item0 : DownloadItem) (startTime : ℚ) : DownloadItem :=
  { item0 with
    status := .baixando
    start_time := some startTime
    last_time := startTime
    last_downloaded := 0 }

/-- Lines 179-181 of _download_item: adopt the established total size when
it is nonzero. -/
def dl_adopt_total (item : DownloadItem) (r : StreamResp) : DownloadItem :=
  let total := established_total item r
  if total ≠ 0 then { item with total_size := total } else item

/-- DownloadController._download_item.  `ctrlChunkAt k` is the value of
the controller chunk_size field at the time of read k of this transfer;
line 183 captures it once, at read 0.  `resp` is the outcome of
stream_episode: an exception, or a response.  The local byte counter
starts at 0 (line 184). -/
def download_item (ctrlChunkAt : Nat → Nat) (clock : Nat → ℚ) (startTime : ℚ)
    (cancelAt : Nat → Bool) (onErrorSet : Bool)
    (item0 : DownloadItem) (resp : Except Exc StreamResp) : ExecResult :=
  let item : DownloadItem := dl_start_item item0 startTime
  match resp with
  | .error e =>
    let p := handle_exc onErrorSet item e
    { item := p.1, file_opened := false, writes := [], reads := [],
      downloadedTrace := [item.downloaded], error_callback := p.2,
      statuses := [.baixando, p.1.status] }
  | .ok r =>
    let item := dl_adopt_total item r
    let chunk_size := ctrlChunkAt 0
    let rs := runChunks chunk_size clock cancelAt item 0 0 r.chunks
    match rs.raised with
    | some e =>
      let p := handle_exc onErrorSet rs.item e
      { item := p.1, file_opened := true, writes := rs.writes, reads := rs.reads,
        downloadedTrace := item.downloaded :: rs.trace, error_callback := p.2,
        statuses := [.baixando, p.1.status] }
    | none =>
      match r.tail with
      | some e =>
        let p := handle_exc onErrorSet rs.item e
        { item := p.1, file_opened := true, writes := rs.writes, reads := rs.reads,
          downloadedTrace := item.downloaded :: rs.trace, error_callback := p.2,
          statuses := [.baixando, p.1.status] }
      | none =>
        let itemC :=
          if rs.item.total_size = 0 then { rs.item with total_size := rs.downloaded }
          else { rs.item with downloaded := rs.item.total_size }
        let itemC := { itemC with status := .concluido, speed := 0, eta := .seconds 0 }
        let traceC :=
          if rs.item.total_size = 0 then item.downloaded :: rs.trace
          else item.downloaded :: (rs.trace ++ [rs.item.total_size])
        { item := itemC, file_opened := true, writes := rs.writes, reads := rs.reads,
          downloadedTrace := traceC, error_callback := none,
          statuses := [.baixando, .concluido] ++ (if item0.show_success then [.concluido] else []) }

/-- DownloadController._sanitize_chunk_size: clamp to at least 0.25 MiB
and truncate the byte count to an integer. -/
def sanitize_chunk_size (chunk_size_mb : ℚ) : Nat :=
  (Int.floor (max (1 / 4 : ℚ) chunk_size_mb * 1024 * 1024)).toNat

/-- Modelled from the claim wording of C9 only (for comparison with the
code): the read sizes the claim says should be used, namely the
controller chunk size current at each read. -/
def reads_per_claim (ctrlChunkAt : Nat → Nat) (n : Nat) : List Nat :=
  (List.range n).map ctrlChunkAt

/-! ## The controller as a small-step transition system

The DownloadController with its worker threads is embedded as a state
machine.  Items are allocated objects (indices into `objs`), since
queue_episode creates a fresh DownloadItem object on every non-existing
enqueue while the items dict maps each episode id to its latest object.
Only the status of each object is tracked at this level; the byte-level
behaviour of one transfer is the per-item model above. -/

/-- Network requests issued by the controller: the metadata request of
client.get_item (line 107) and the stream request of client.stream_episode
(line 178). -/
inductive NetOp
  | getItem (id : String)
  | openStream (id : String)
deriving DecidableEq, Repr

/-- Position of one worker thread in its loop (lines 153-167): blocked on
queue.get, holding a dequeued item before the slot is acquired, running
_download_item, or about to decrement current_downloads. -/
inductive WState
  | idle
  | holding (r : Nat)
  | running (r : Nat)
  | releasing
deriving DecidableEq, Repr

/-- One allocated DownloadItem object, reduced to its identity and status. -/
structure Obj where
  id : String
  status : Status
deriving DecidableEq, Repr

/-- State of the DownloadController and its workers.  `objs` holds every
DownloadItem ever created (an object reference is an index), `items` is the
items dict mapping episode ids to the current object, `queue` the FIFO work
queue of object references, `cancelled` the cancellation set, `net` the log
of network requests, `files` the log of destination files created, `emits`
the log of status events. -/
structure Ctrl where
  max_concurrent : Nat
  current_downloads : Nat
  chunk_size : Nat
  queue : List Nat
  objs : List Obj
  items : List (String × Nat)
  cancelled : List String
  workers : List WState
  net : List NetOp
  files : List Nat
  emits : List (String × Status)
deriving DecidableEq, Repr

/-- Status of the object a reference denotes, when the reference is valid. -/
def statusOf (s : Ctrl) (r : Nat) : Option Status := (s.objs[r]?).map (·.status)

/-- Identity of the object a reference denotes (valid references only are
ever used). -/
def idOf (s : Ctrl) (r : Nat) : String := ((s.objs[r]?).map (·.id)).getD ""

/-- Replace the status of the object a valid reference denotes. -/
def setStatus (objs : List Obj) (r : Nat) (st : Status) : List Obj :=
  match objs[r]? with
  | some o => objs.set r { o with status := st }
  | none => objs

/-- Update of the items dict at one key, keeping keys unique. -/
def setAssoc (l : List (String × Nat)) (k : String) (v : Nat) : List (String × Nat) :=
  match l with
  | [] => [(k, v)]
  | (k2, v2) :: rest => if k2 = k then (k, v) :: rest else (k2, v2) :: setAssoc rest k v

/-- Set insertion into the cancelled set (Python set add). -/
def insertId (l : List String) (id : String) : List String :=
  if id ∈ l then l else l ++ [id]

/-- Events of the system: the public operations of DownloadController plus
the scheduler-chosen steps of the worker threads.  `enqueue` carries the
environment fact of whether the destination file exists; `finishErr`
carries whether stream_episode succeeded before the failure (and hence
whether the destination file was created). -/
inductive Ev
  | enqueue (id : String) (fileExists : Bool)
  | cancel (id : String)
  | dequeue (w : Nat)
  | acquire (w : Nat)
  | finishOk (w : Nat)
  | finishErr (w : Nat) (gotStream : Bool)
  | finishCancel (w : Nat)
  | release (w : Nat)
  | setMax (n : Nat)
  | setChunk (mb : ℚ)
deriving DecidableEq, Repr

/-- True when the event is an enqueue. -/
def isEnqueue : Ev → Bool
  | .enqueue _ _ => true
  | _ => false

/-- DownloadController.queue_episode (lines 106-146): client.get_item is
always called first (a network request); if the destination file exists the
existing registered item, when any, is restamped "Ja existe" and that status
is emitted, without queueing anything and without opening a stream;
otherwise a fresh item is created, registered, queued and "Na fila" is
emitted. -/
def step_enqueue (s : Ctrl) (id : String) (fileExists : Bool) : Ctrl :=
  let s1 : Ctrl := { s with net := s.net ++ [.getItem id] }
  if fileExists then
    match s1.items.lookup id with
    | some r =>
      { s1 with
        objs := setStatus s1.objs r .jaExiste
        emits := s1.emits ++ [(id, .jaExiste)] }
    | none => { s1 with emits := s1.emits ++ [(id, .jaExiste)] }
  else
    let r := s1.objs.length
    { s1 with
      objs := s1.objs ++ [⟨id, .naFila⟩]
      items := setAssoc s1.items id r
      queue := s1.queue ++ [r]
      emits := s1.emits ++ [(id, .naFila)] }

/-- One transition of the controller system.  Guards that fail (a worker in
the wrong loop position, an empty queue, all slots taken) leave the state
unchanged: the corresponding thread simply stays blocked. -/
def step (s : Ctrl) : Ev → Ctrl
  | .enqueue id ex => step_enqueue s id ex
  | .cancel id => { s with cancelled := insertId s.cancelled id }
  | .dequeue w =>
    match s.workers[w]?, s.queue with
    | some .idle, r :: rest =>
      match s.objs[r]? with
      | some o =>
        if o.id ∈ s.cancelled then
          { s with queue := rest, cancelled := s.cancelled.erase o.id }
        else
          { s with queue := rest, workers := s.workers.set w (.holding r) }
      | none => s
    | _, _ => s
  | .acquire w =>
    match s.workers[w]? with
    | some (WState.holding r) =>
      if s.current_downloads < s.max_concurrent then
        { s with
          current_downloads := s.current_downloads + 1
          objs := setStatus s.objs r .baixando
          workers := s.workers.set w (.running r)
          emits := s.emits ++ [(idOf s r, .baixando)] }
      else s
    | _ => s
  | .finishOk w =>
    match s.workers[w]? with
    | some (WState.running r) =>
      { s with
        objs := setStatus s.objs r .concluido
        workers := s.workers.set w .releasing
        net := s.net ++ [.openStream (idOf s r)]
        files := s.files ++ [r]
        emits := s.emits ++ [(idOf s r, .concluido)] }
    | _ => s
  | .finishErr w gotStream =>
    match s.workers[w]? with
    | some (WState.running r) =>
      { s with
        objs := setStatus s.objs r .erro
        workers := s.workers.set w .releasing
        net := s.net ++ [.openStream (idOf s r)]
        files := if gotStream then s.files ++ [r] else s.files
        emits := s.emits ++ [(idOf s r, .erro)] }
    | _ => s
  | .finishCancel w =>
    match s.workers[w]? with
    | some (WState.running r) =>
      if idOf s r ∈ s.cancelled then
        { s with
          objs := setStatus s.objs r .cancelado
          workers := s.workers.set w .releasing
          cancelled := s.cancelled.erase (idOf s r)
          net := s.net ++ [.openStream (idOf s r)]
          files := s.files ++ [r]
          emits := s.emits ++ [(idOf s r, .cancelado)] }
      else s
    | _ => s
  | .release w =>
    match s.workers[w]? with
    | some .releasing =>
      { s with
        current_downloads := s.current_downloads - 1
        workers := s.workers.set w .idle }
    | _ => s
  | .setMax n =>
    let m := max 1 n
    { s with
      max_concurrent := m
      workers := s.workers ++ List.replicate (m - s.workers.length) .idle }
  | .setChunk mb => { s with chunk_size := sanitize_chunk_size mb }

/-- Run a sequence of events. -/
def run (s : Ctrl) (evts : List Ev) : Ctrl := evts.foldl step s

/-- Initial state of a DownloadController (lines 50-76). -/
def initCtrl (maxC : Nat) (chunkMb : ℚ) : Ctrl :=
  { max_concurrent := max 1 maxC
    current_downloads := 0
    chunk_size := sanitize_chunk_size chunkMb
    queue := []
    objs := []
    items := []
    cancelled := []
    workers := List.replicate (max 1 maxC) .idle
    net := []
    files := []
    emits := [] }

/-- True of a worker that is running a transfer. -/
def isRunningW : WState → Bool
  | .running _ => true
  | _ => false

/-- True of a worker holding a concurrency slot: between the
current_downloads increment of _acquire_slot and the decrement at
line 165. -/
def isBusyW : WState → Bool
  | .running _ => true
  | .releasing => true
  | _ => false

/-- References of the registered items whose object is in Downloading
state. -/
def downSet (s : Ctrl) : Finset ℕ :=
  (Finset.range s.objs.length).filter (fun r => statusOf s r = some .baixando)

/-- Number of items simultaneously in Downloading state. -/
def downloadingCount (s : Ctrl) : Nat := (downSet s).card

/-- True of an optional worker state that is running a transfer. -/
def isRunningO : Option WState → Bool
  | some (.running _) => true
  | _ => false

/-- Worker indices currently running a transfer. -/
def runSet (s : Ctrl) : Finset ℕ :=
  (Finset.range s.workers.length).filter (fun w => isRunningO s.workers[w]? = true)

/-- The trace condition under which the concurrency bound is claimed: the
sanitized value of every setMax call is at least the maxConcurrent current
when it happens (no downward resize). -/
def noShrink : Nat → List Ev → Bool
  | _, [] => true
  | m, (Ev.setMax n) :: es => decide (m ≤ max 1 n) && noShrink (max 1 n) es
  | m, _ :: es => noShrink m es

/-- Invariant of the controller state, established by the constructor and
preserved by every step: current_downloads counts exactly the workers
holding a slot; every Downloading item is run by some worker; queued and
held objects are in the pre-download states; a running worker's object is
Downloading unless a concurrent re-enqueue restamped it "Ja existe"; each
object is dequeued by at most one worker and queued at most once (queue
entries are freshly allocated objects). -/
structure Inv (s : Ctrl) : Prop where
  cd_eq : s.current_downloads = s.workers.countP isBusyW
  down_run : ∀ r : Nat, statusOf s r = some .baixando →
      ∃ w : Nat, s.workers[w]? = some (WState.running r)
  queue_status : ∀ r ∈ s.queue,
      statusOf s r = some .naFila ∨ statusOf s r = some .jaExiste
  holding_status : ∀ w r : Nat, s.workers[w]? = some (WState.holding r) →
      statusOf s r = some .naFila ∨ statusOf s r = some .jaExiste
  running_status : ∀ w r : Nat, s.workers[w]? = some (WState.running r) →
      statusOf s r = some .baixando ∨ statusOf s r = some .jaExiste
  held_distinct : ∀ w1 w2 r : Nat,
      (s.workers[w1]? = some (WState.holding r) ∨ s.workers[w1]? = some (WState.running r)) →
      (s.workers[w2]? = some (WState.holding r) ∨ s.workers[w2]? = some (WState.running r)) →
      w1 = w2
  held_not_queued : ∀ w r : Nat,
      (s.workers[w]? = some (WState.holding r) ∨ s.workers[w]? = some (WState.running r)) →
      r ∉ s.queue
  queue_nodup : s.queue.Nodup

/-! ## Helper lemmas for the per-item model -/

theorem update_progress_downloaded (item : DownloadItem) (now : ℚ) :
    (update_progress item now).1.downloaded = item.downloaded := by
  simp only [update_progress]
  split <;> rfl

theorem update_progress_total_size (item : DownloadItem) (now : ℚ) :
    (update_progress item now).1.total_size = item.total_size := by
  simp only [update_progress]
  split <;> rfl

theorem update_progress_status (item : DownloadItem) (now : ℚ) :
    (update_progress item now).1.status = item.status := by
  simp only [update_progress]
  split <;> rfl

theorem runChunks_raised_none (cz : Nat) (clock : Nat → ℚ) :
    ∀ (cs : List Nat) (item : DownloadItem) (d k : Nat),
      (runChunks cz clock (fun _ => false) item d k cs).raised = none := by
  intro cs
  induction cs with
  | nil => intro item d k; rfl
  | cons c rest ih =>
    intro item d k
    simp only [runChunks]
    by_cases hc : c = 0
    · simp only [hc, if_true, if_false, Bool.false_eq_true, ite_false]
      exact ih _ _ _
    · simp only [hc, Bool.false_eq_true, if_false, ite_false]
      exact ih _ _ _

theorem runChunks_reads (cz : Nat) (clock : Nat → ℚ) (ca : Nat → Bool) :
    ∀ (cs : List Nat) (item : DownloadItem) (d k : Nat),
      (runChunks cz clock ca item d k cs).reads
        = List.replicate (runChunks cz clock ca item d k cs).reads.length cz := by
  intro cs
  induction cs with
  | nil => intro item d k; rfl
  | cons c rest ih =>
    intro item d k
    simp only [runChunks]
    by_cases hca : ca k
    · simp [hca, List.replicate]
    · by_cases hc : c = 0
      · simp only [hca, hc, Bool.false_eq_true, if_false, if_true, ite_false]
        simp only [List.length_cons, List.replicate_succ, List.cons.injEq, true_and]
        exact ih _ _ _
      · simp only [hca, hc, Bool.false_eq_true, if_false, ite_false]
        simp only [List.length_cons, List.replicate_succ, List.cons.injEq, true_and]
        exact ih _ _ _

theorem runChunks_spec (cz : Nat) (clock : Nat → ℚ) (ca : Nat → Bool) :
    ∀ (cs : List Nat) (item : DownloadItem) (d k : Nat) (rs : RunState),
      runChunks cz clock ca item d k cs = rs → item.downloaded = d →
      rs.item.downloaded = rs.downloaded
      ∧ rs.item.total_size = item.total_size
      ∧ rs.item.status = item.status
      ∧ List.Chain' (· ≤ ·) (d :: rs.trace)
      ∧ (d :: rs.trace).getLast? = some rs.downloaded
      ∧ d ≤ rs.downloaded
      ∧ (rs.raised = none → rs.downloaded = d + cs.sum)
      ∧ rs.writes.sum + d = rs.downloaded := by
  intro cs
  induction cs with
  | nil =>
    intro item d k rs hrs hd
    subst hrs
    exact ⟨hd, rfl, rfl, List.chain'_singleton d, rfl, le_refl d,
      fun _ => (Nat.add_zero d).symm, Nat.zero_add d⟩
  | cons c rest ih =>
    intro item d k rs hrs hd
    by_cases hca : ca k
    · simp only [runChunks, hca, if_true] at hrs
      subst hrs
      exact ⟨hd, rfl, rfl, List.chain'_singleton d, rfl, le_refl d,
        fun h => absurd h (by simp), Nat.zero_add d⟩
    · by_cases hc : c = 0
      · simp only [runChunks, hca, hc, Bool.false_eq_true, if_false, if_true, ite_false] at hrs
        obtain ⟨h1, h2, h3, h4, h5, h6, h7, h8⟩ :=
          ih item d (k + 1) (runChunks cz clock ca item d (k + 1) rest) rfl hd
        subst hrs
        refine ⟨h1, h2, h3, h4, h5, h6, ?_, h8⟩
        intro h
        simpa [hc] using h7 h
      · simp only [runChunks, hca, hc, Bool.false_eq_true, if_false, ite_false] at hrs
        set item2 := (update_progress { item with downloaded := d + c } (clock k)).1 with hitem2
        obtain ⟨h1, h2, h3, h4, h5, h6, h7, h8⟩ :=
          ih item2 (d + c) (k + 1) (runChunks cz clock ca item2 (d + c) (k + 1) rest) rfl
            (by rw [hitem2, update_progress_downloaded])
        subst hrs
        simp only []
        refine ⟨h1, ?_, ?_, ?_, ?_, ?_, ?_, ?_⟩
        · rw [h2, hitem2, update_progress_total_size]
        · rw [h3, hitem2, update_progress_status]
        · exact List.Chain'.cons (Nat.le_add_right d c) h4
        · rw [List.getLast?_cons_cons]
          exact h5
        · exact le_trans (Nat.le_add_right d c) h6
        · intro h
          have := h7 h
          simp only [List.sum_cons]
          omega
        · simp only [List.sum_cons]
          omega

/-! ## C6: failures are item-scoped and cancellation is not an error -/

/-- C6: for every exception ending an item transfer — whether stream_episode
fails or the stream raises after its chunks — the item ends Cancelled with no
error callback when the exception is the cancellation signal (a RuntimeError
whose lowercased message contains "cancelado"), and ends Failed with the
error callback fired (when a callback is registered) otherwise; in both cases
_download_item returns normally with a terminal status instead of
propagating, so the worker loop continues. -/
theorem c6_failure_classification
    (t : Nat → Nat) (clock : Nat → ℚ) (st : ℚ) (oe : Bool)
    (item0 : DownloadItem) (resp : StreamResp) (e : Exc)
    (htail : resp.tail = some e) :
    (download_item t clock st (fun _ => false) oe item0 (.ok resp)).item.status
        = (if isCancelSignal e then .cancelado else .erro)
    ∧ (download_item t clock st (fun _ => false) oe item0 (.ok resp)).error_callback
        = (if oe ∧ isCancelSignal e = false then some e else none)
    ∧ (download_item t clock st (fun _ => false) oe item0 (.error e)).item.status
        = (if isCancelSignal e then .cancelado else .erro)
    ∧ (download_item t clock st (fun _ => false) oe item0 (.error e)).error_callback
        = (if oe ∧ isCancelSignal e = false then some e else none) := by
  have hraise := runChunks_raised_none (t 0) clock resp.chunks
  refine ⟨?_, ?_, ?_, ?_⟩ <;>
    simp only [download_item, handle_exc, hraise, htail] <;>
    by_cases hcs : isCancelSignal e <;> by_cases hoe : oe <;>
    simp [hcs, hoe]

/-- C6 witness: concrete instantiation — the cancellation signal yields
Cancelled with no callback. -/
theorem c6_witness :
    (download_item (fun _ => 1) (fun _ => 0) 0 (fun _ => false) true
        { episode_id := "x", filename := "f" }
        (.ok { content_length := 4, chunks := [2], tail := some (.runtimeError cancelMsg) })).item.status
        = (if isCancelSignal (.runtimeError cancelMsg) then .cancelado else .erro)
    ∧ (download_item (fun _ => 1) (fun _ => 0) 0 (fun _ => false) true
        { episode_id := "x", filename := "f" }
        (.ok { content_length := 4, chunks := [2], tail := some (.runtimeError cancelMsg) })).error_callback
        = (if true ∧ isCancelSignal (.runtimeError cancelMsg) = false
            then some (.runtimeError cancelMsg) else none)
    ∧ (download_item (fun _ => 1) (fun _ => 0) 0 (fun _ => false) true
        { episode_id := "x", filename := "f" }
        (.error (.runtimeError cancelMsg))).item.status
        = (if isCancelSignal (.runtimeError cancelMsg) then .cancelado else .erro)
    ∧ (download_item (fun _ => 1) (fun _ => 0) 0 (fun _ => false) true
        { episode_id := "x", filename := "f" }
        (.error (.runtimeError cancelMsg))).error_callback
        = (if true ∧ isCancelSignal (.runtimeError cancelMsg) = false
            then some (.runtimeError cancelMsg) else none) :=
  c6_failure_classification (fun _ => 1) (fun _ => 0) 0 true
    { episode_id := "x", filename := "f" }
    { content_length := 4, chunks := [2], tail := some (.runtimeError cancelMsg) }
    (.runtimeError cancelMsg) rfl

/-! ## C8: unknown total size reporting -/

/-- C8 counterexample: with a total size of 0 (unknown) the progress payload
reports percent as the number 0, exactly the same value a known-size item at
0 percent reports — not a distinguished unknown value. -/
theorem c8_counterexample :
    (DownloadItem.as_progress_payload
        { episode_id := "x", filename := "f", total_size := 0, downloaded := 123 }).percent = 0
    ∧ (DownloadItem.as_progress_payload
        { episode_id := "y", filename := "g", total_size := 1000, downloaded := 0 }).percent = 0 := by
  refine ⟨rfl, ?_⟩
  norm_num [DownloadItem.as_progress_payload]

/-- C8 (amended): for an item whose total size is 0 from both sources, a
progress sample reports eta as the distinguished string "Desconhecido", but
percent as the plain number 0.0, indistinguishable from a genuine 0
percent. -/
theorem c8_unknown_size_report (item : DownloadItem) (now : ℚ)
    (hz : item.total_size = 0) (helapsed : ¬ (now - item.last_time < 1)) :
    item.as_progress_payload.percent = 0
    ∧ (update_progress item now).2.map (fun p => (p.percent, p.eta))
        = some (0, EtaVal.desconhecido) := by
  constructor
  · simp [DownloadItem.as_progress_payload, hz]
  · simp only [update_progress, helapsed, if_false, ite_false]
    simp [DownloadItem.as_progress_payload, hz]

/-- C8 witness: concrete unknown-size item sampled after one second. -/
theorem c8_witness :
    ({ episode_id := "x", filename := "f", total_size := 0, downloaded := 7,
       last_time := 0 } : DownloadItem).as_progress_payload.percent = 0
    ∧ (update_progress
        { episode_id := "x", filename := "f", total_size := 0, downloaded := 7,
          last_time := 0 } 2).2.map (fun p => (p.percent, p.eta))
        = some (0, EtaVal.desconhecido) :=
  c8_unknown_size_report
    { episode_id := "x", filename := "f", total_size := 0, downloaded := 7, last_time := 0 }
    2 rfl (by norm_num)

/-! ## C9: chunk-size changes and in-flight transfers -/

/-- C9 counterexample: with the controller chunk size 262144 at read 0 and
524288 from read 1 on (a set_chunk_size_mb call between the reads), the
transfer keeps using 262144 for every read, not the current value the claim
prescribes. -/
theorem c9_counterexample :
    (download_item (fun k => if k = 0 then 262144 else 524288) (fun _ => 0) 0
        (fun _ => false) true { episode_id := "x", filename := "f" }
        (.ok { content_length := 2, chunks := [1, 1], tail := none })).reads
      = [262144, 262144]
    ∧ reads_per_claim (fun k => if k = 0 then 262144 else 524288) 2 = [262144, 524288]
    ∧ ([262144, 262144] : List Nat) ≠ [262144, 524288] := by
  refine ⟨rfl, rfl, by decide⟩

/-- C9 (amended): line 183 captures the controller chunk size once, when the
transfer starts; every read of that transfer then uses this captured value,
so a set_chunk_size_mb call affects only transfers started after it, not the
next read of an in-flight transfer. -/
theorem c9_chunk_size_captured_at_start
    (t : Nat → Nat) (clock : Nat → ℚ) (st : ℚ) (ca : Nat → Bool) (oe : Bool)
    (item0 : DownloadItem) (resp : StreamResp) :
    (download_item t clock st ca oe item0 (.ok resp)).reads
      = List.replicate (download_item t clock st ca oe item0 (.ok resp)).reads.length (t 0) := by
  have h := runChunks_reads (t 0) clock ca resp.chunks
    (dl_adopt_total (dl_start_item item0 st) resp) 0 0
  simp only [download_item]
  rcases hr : (runChunks (t 0) clock ca
      (dl_adopt_total (dl_start_item item0 st) resp) 0 0 resp.chunks).raised with _ | e
  · rcases ht : resp.tail with _ | e2 <;> simp only [hr, ht] <;> exact h
  · simp only [hr]
    exact h

/-! ## C2: monotonicity of downloadedBytes -/

/-- C2 counterexample: a stream that delivers 10 bytes against an announced
total of 5 ends Completed with item.downloaded overwritten from 10 down to 5
(line 204), so the sequence of downloaded values 0, 10, 5 is not
non-decreasing. -/
theorem c2_counterexample :
    (download_item (fun _ => 1048576) (fun _ => 0) 0 (fun _ => false) true
        { episode_id := "x", filename := "f", total_size := 5 }
        (.ok { content_length := 0, chunks := [10], tail := none })).downloadedTrace
      = [0, 10, 5]
    ∧ ¬ List.Chain' (· ≤ ·) ([0, 10, 5] : List Nat) := by
  refine ⟨?_, fun h => ?_⟩
  · norm_num [download_item, dl_adopt_total, dl_start_item, established_total, runChunks,
      update_progress, handle_exc]
  · rw [List.chain'_cons, List.chain'_cons] at h
    exact absurd h.2.1 (by omega)

/-- C2 (amended): item.downloaded is non-decreasing across every chunk write;
the completion step at line 204 overwrites it with totalBytes, which is a
decrease exactly when the stream delivered more than the announced total, so
the whole lifetime is non-decreasing provided the stream delivers at most the
established total (or the total is unknown).  Once Completed, downloaded
always equals total_size. -/
theorem c2_downloaded_monotone
    (t : Nat → Nat) (clock : Nat → ℚ) (st : ℚ) (ca : Nat → Bool) (oe : Bool)
    (item0 : DownloadItem) (resp : StreamResp)
    (h0 : item0.downloaded = 0)
    (hsum : resp.chunks.sum ≤ established_total item0 resp
            ∨ established_total item0 resp = 0) :
    List.Chain' (· ≤ ·) (download_item t clock st ca oe item0 (.ok resp)).downloadedTrace
    ∧ ((download_item t clock st ca oe item0 (.ok resp)).item.status = .concluido →
        (download_item t clock st ca oe item0 (.ok resp)).item.downloaded
          = (download_item t clock st ca oe item0 (.ok resp)).item.total_size) := by
  have h1down : (dl_adopt_total (dl_start_item item0 st) resp).downloaded = 0 := by
    unfold dl_adopt_total
    dsimp only
    split <;> simpa [dl_start_item] using h0
  have hest : established_total (dl_start_item item0 st) resp = established_total item0 resp :=
    rfl
  simp only [download_item]
  set rs := runChunks (t 0) clock ca (dl_adopt_total (dl_start_item item0 st) resp) 0 0
    resp.chunks with hrs
  obtain ⟨s1, s2, s3, s4, s5, s6, s7, s8⟩ :=
    runChunks_spec (t 0) clock ca resp.chunks (dl_adopt_total (dl_start_item item0 st) resp)
      0 0 rs hrs.symm h1down
  rcases hr : rs.raised with _ | e
  · rcases ht : resp.tail with _ | e2
    · -- clean completion
      simp only [hr, ht]
      by_cases hT : rs.item.total_size = 0
      · simp only [hT, if_true, ite_true]
        constructor
        · rw [h1down]
          exact s4
        · intro _
          simp [s1]
      · simp only [hT, if_false, ite_false]
        have htot1 : (dl_adopt_total (dl_start_item item0 st) resp).total_size ≠ 0 := by
          rw [← s2]; exact hT
        have hestne : established_total item0 resp ≠ 0 := by
          intro hz
          have hts0 : item0.total_size = 0 := by
            by_contra hx
            have : established_total item0 resp = item0.total_size := by
              unfold established_total
              simp [hx]
            omega
          apply htot1
          unfold dl_adopt_total
          dsimp only
          rw [hest, hz]
          simp [dl_start_item, hts0]
        have htot2 : (dl_adopt_total (dl_start_item item0 st) resp).total_size
            = established_total item0 resp := by
          unfold dl_adopt_total
          dsimp only
          rw [hest]
          simp [hestne]
        have hsum2 : resp.chunks.sum ≤ established_total item0 resp := by
          rcases hsum with h | h
          · exact h
          · exact absurd h hestne
        have hdle : rs.downloaded ≤ rs.item.total_size := by
          rw [s2, htot2]
          have := s7 hr
          omega
        constructor
        · rw [h1down]
          have hsplit : (0 : Nat) :: (rs.trace ++ [rs.item.total_size])
              = (0 :: rs.trace) ++ [rs.item.total_size] := by simp
          rw [hsplit]
          refine List.chain'_append.mpr ⟨s4, List.chain'_singleton _, ?_⟩
          intro x hx y hy
          rw [s5] at hx
          simp only [Option.mem_def, Option.some.injEq] at hx
          simp only [List.head?_cons, Option.mem_def, Option.some.injEq] at hy
          rw [← hx, ← hy] at *
          exact hdle
        · exact fun _ => trivial
    · -- stream raised e2 after its chunks
      simp only [hr, ht, handle_exc]
      constructor
      · rw [h1down]
        exact s4
      · intro hst2
        exfalso
        revert hst2
        split <;> simp
  · -- cancellation observed mid-loop
    simp only [hr, handle_exc]
    constructor
    · rw [h1down]
      exact s4
    · intro hst2
      exfalso
      revert hst2
      split <;> simp

/-- C2 witness: a stream delivering exactly the announced total keeps
downloaded non-decreasing and ends Completed with downloaded = total. -/
theorem c2_witness :
    List.Chain' (· ≤ ·) (download_item (fun _ => 1) (fun _ => 0) 0 (fun _ => false) true
        { episode_id := "x", filename := "f", total_size := 5 }
        (.ok { content_length := 0, chunks := [2, 3], tail := none })).downloadedTrace
    ∧ ((download_item (fun _ => 1) (fun _ => 0) 0 (fun _ => false) true
        { episode_id := "x", filename := "f", total_size := 5 }
        (.ok { content_length := 0, chunks := [2, 3], tail := none })).item.status = .concluido →
        (download_item (fun _ => 1) (fun _ => 0) 0 (fun _ => false) true
        { episode_id := "x", filename := "f", total_size := 5 }
        (.ok { content_length := 0, chunks := [2, 3], tail := none })).item.downloaded
          = (download_item (fun _ => 1) (fun _ => 0) 0 (fun _ => false) true
        { episode_id := "x", filename := "f", total_size := 5 }
        (.ok { content_length := 0, chunks := [2, 3], tail := none })).item.total_size) :=
  c2_downloaded_monotone (fun _ => 1) (fun _ => 0) 0 (fun _ => false) true
    { episode_id := "x", filename := "f", total_size := 5 }
    { content_length := 0, chunks := [2, 3], tail := none }
    rfl (Or.inl (by decide))

/-! ## C10: short clean stream still marked Completed -/

/-- C10: when the stream ends cleanly having delivered strictly fewer bytes
than the item's known nonzero total, the item is nevertheless marked
Completed and its downloaded field is overwritten to the total, while the
bytes written to the destination file sum to the smaller delivered count. -/
theorem c10_short_stream_completed
    (t : Nat → Nat) (clock : Nat → ℚ) (st : ℚ) (oe : Bool)
    (item0 : DownloadItem) (resp : StreamResp)
    (h0 : item0.downloaded = 0) (hT : item0.total_size ≠ 0)
    (hlt : resp.chunks.sum < item0.total_size) (htail : resp.tail = none) :
    (download_item t clock st (fun _ => false) oe item0 (.ok resp)).item.status = .concluido
    ∧ (download_item t clock st (fun _ => false) oe item0 (.ok resp)).item.downloaded
        = item0.total_size
    ∧ (download_item t clock st (fun _ => false) oe item0 (.ok resp)).writes.sum
        = resp.chunks.sum
    ∧ resp.chunks.sum < item0.total_size := by
  have hestT : established_total item0 resp = item0.total_size := by
    unfold established_total
    simp [hT]
  have h1down : (dl_adopt_total (dl_start_item item0 st) resp).downloaded = 0 := by
    unfold dl_adopt_total
    dsimp only
    split <;> simpa [dl_start_item] using h0
  have htot2 : (dl_adopt_total (dl_start_item item0 st) resp).total_size = item0.total_size := by
    unfold dl_adopt_total
    dsimp only
    rw [show established_total (dl_start_item item0 st) resp = established_total item0 resp
      from rfl, hestT]
    simp [hT]
  simp only [download_item]
  set rs := runChunks (t 0) clock (fun _ => false)
    (dl_adopt_total (dl_start_item item0 st) resp) 0 0 resp.chunks with hrs
  obtain ⟨s1, s2, s3, s4, s5, s6, s7, s8⟩ :=
    runChunks_spec (t 0) clock (fun _ => false) resp.chunks
      (dl_adopt_total (dl_start_item item0 st) resp) 0 0 rs hrs.symm h1down
  have hr : rs.raised = none := by
    rw [hrs]
    exact runChunks_raised_none (t 0) clock resp.chunks _ 0 0
  have hdl : rs.downloaded = resp.chunks.sum := by
    have := s7 hr
    omega
  have hT2 : rs.item.total_size = item0.total_size := by rw [s2, htot2]
  simp only [hr, htail]
  have hTne : ¬ rs.item.total_size = 0 := by
    rw [hT2]
    exact hT
  simp only [hTne, if_false, ite_false]
  refine ⟨?_, ?_, ?_, hlt⟩
  · trivial
  · exact hT2
  · have := s7 hr
    omega

/-- C10 witness: total 5, chunks summing to 4, clean end. -/
theorem c10_witness :
    (download_item (fun _ => 1) (fun _ => 0) 0 (fun _ => false) true
        { episode_id := "x", filename := "f", total_size := 5 }
        (.ok { content_length := 0, chunks := [2, 2], tail := none })).item.status = .concluido
    ∧ (download_item (fun _ => 1) (fun _ => 0) 0 (fun _ => false) true
        { episode_id := "x", filename := "f", total_size := 5 }
        (.ok { content_length := 0, chunks := [2, 2], tail := none })).item.downloaded = 5
    ∧ (download_item (fun _ => 1) (fun _ => 0) 0 (fun _ => false) true
        { episode_id := "x", filename := "f", total_size := 5 }
        (.ok { content_length := 0, chunks := [2, 2], tail := none })).writes.sum
        = ([2, 2] : List Nat).sum
    ∧ ([2, 2] : List Nat).sum < 5 :=
  c10_short_stream_completed (fun _ => 1) (fun _ => 0) 0 true
    { episode_id := "x", filename := "f", total_size := 5 }
    { content_length := 0, chunks := [2, 2], tail := none }
    rfl (by decide) (by decide) rfl

/-! ## Helper lemmas for the controller model -/

theorem setStatus_length (objs : List Obj) (r : Nat) (st : Status) :
    (setStatus objs r st).length = objs.length := by
  unfold setStatus
  cases objs[r]? <;> simp

theorem setStatus_getElem?_ne (objs : List Obj) (r r2 : Nat) (st : Status) (h : r ≠ r2) :
    (setStatus objs r st)[r2]? = objs[r2]? := by
  unfold setStatus
  cases objs[r]? <;> simp [List.getElem?_set_ne h]

theorem setStatus_getElem?_self (objs : List Obj) (r : Nat) (st : Status) (o : Obj)
    (h : objs[r]? = some o) :
    (setStatus objs r st)[r]? = some { o with status := st } := by
  unfold setStatus
  rw [h]
  have hlt : r < objs.length := (List.getElem?_eq_some_iff.mp h).1
  simp [List.getElem?_set_self hlt]

theorem getElem?_out_of_range {α : Type} (l : List α) (w : Nat) (h : ¬ w < l.length) :
    l[w]? = none :=
  List.getElem?_eq_none (Nat.le_of_not_lt h)

theorem setStatus_of_none (objs : List Obj) (r : Nat) (st : Status) (h : objs[r]? = none) :
    setStatus objs r st = objs := by
  unfold setStatus
  rw [h]

/-- Steps never shrink the object store, and they never touch a queued or
unheld, non-downloading object: acquire only targets held references and
enqueue only queues the freshly allocated one. -/
theorem not_downloading_step (r : Nat) (s : Ctrl) (e : Ev)
    (hlen : r < s.objs.length) (hq : r ∉ s.queue)
    (hw : ∀ w : Nat, s.workers[w]? ≠ some (WState.holding r)
        ∧ s.workers[w]? ≠ some (WState.running r))
    (hst : statusOf s r ≠ some .baixando) :
    r < (step s e).objs.length ∧ r ∉ (step s e).queue
    ∧ (∀ w : Nat, (step s e).workers[w]? ≠ some (WState.holding r)
        ∧ (step s e).workers[w]? ≠ some (WState.running r))
    ∧ statusOf (step s e) r ≠ some .baixando := by
  cases e with
  | enqueue id ex =>
    cases ex with
    | true =>
      rcases hlk : s.items.lookup id with _ | r0
      · simp only [step, step_enqueue, hlk, if_true]
        exact ⟨hlen, hq, hw, hst⟩
      · simp only [step, step_enqueue, hlk, if_true]
        refine ⟨by simpa [setStatus_length] using hlen, hq, hw, ?_⟩
        by_cases hr0 : r0 = r
        · subst hr0
          rcases ho : s.objs[r0]? with _ | o
          · simp only [statusOf, setStatus_of_none s.objs r0 .jaExiste ho]
            exact hst
          · simp only [statusOf, setStatus_getElem?_self s.objs r0 .jaExiste o ho]
            simp
        · simp only [statusOf, setStatus_getElem?_ne s.objs r0 r .jaExiste hr0]
          exact hst
    | false =>
      simp only [step, step_enqueue, Bool.false_eq_true, if_false, ite_false]
      refine ⟨by simp; omega, ?_, hw, ?_⟩
      · intro hmem
        rcases List.mem_append.mp hmem with h | h
        · exact hq h
        · simp at h
          omega
      · simp only [statusOf, List.getElem?_append_left hlen]
        exact hst
  | cancel id =>
    simp only [step]
    exact ⟨hlen, hq, hw, hst⟩
  | dequeue w0 =>
    rcases hwk : s.workers[w0]? with _ | wst
    · simp only [step, hwk]
      exact ⟨hlen, hq, hw, hst⟩
    · cases wst with
      | idle =>
        rcases hqd : s.queue with _ | ⟨r0, rest⟩
        · simp only [step, hwk, hqd]
          exact ⟨hlen, by simp, hw, hst⟩
        · have hr0 : r0 ≠ r := by
            intro hcon
            subst hcon
            apply hq
            rw [hqd]
            exact List.mem_cons_self r0 rest
          have hrest : r ∉ rest := by
            intro hcon
            apply hq
            rw [hqd]
            exact List.mem_cons_of_mem r0 hcon
          rcases ho : s.objs[r0]? with _ | o
          · simp only [step, hwk, hqd, ho]
            exact ⟨hlen, hqd ▸ hq, hw, hst⟩
          · by_cases hc : o.id ∈ s.cancelled
            · simp only [step, hwk, hqd, ho, hc, if_true, ite_true]
              exact ⟨hlen, hrest, hw, hst⟩
            · simp only [step, hwk, hqd, ho, hc, if_false, ite_false]
              refine ⟨hlen, hrest, ?_, hst⟩
              intro w2
              by_cases hw2 : w2 = w0
              · subst hw2
                have hlt : w2 < s.workers.length := (List.getElem?_eq_some_iff.mp hwk).1
                simp [List.getElem?_set_self hlt, hr0]
              · rw [List.getElem?_set_ne (fun hcon => hw2 hcon.symm)]
                exact hw w2
      | holding r0 =>
        simp only [step, hwk]
        exact ⟨hlen, hq, hw, hst⟩
      | running r0 =>
        simp only [step, hwk]
        exact ⟨hlen, hq, hw, hst⟩
      | releasing =>
        simp only [step, hwk]
        exact ⟨hlen, hq, hw, hst⟩
  | acquire w0 =>
    rcases hwk : s.workers[w0]? with _ | wst
    · simp only [step, hwk]
      exact ⟨hlen, hq, hw, hst⟩
    · cases wst with
      | holding r0 =>
        have hr0 : r0 ≠ r := by
          intro hcon
          subst hcon
          exact (hw w0).1 hwk
        by_cases hcd : s.current_downloads < s.max_concurrent
        · simp only [step, hwk, hcd, if_true, ite_true]
          refine ⟨by simpa [setStatus_length] using hlen, hq, ?_, ?_⟩
          · intro w2
            by_cases hw2 : w2 = w0
            · subst hw2
              have hlt : w2 < s.workers.length := (List.getElem?_eq_some_iff.mp hwk).1
              simp [List.getElem?_set_self hlt, hr0]
            · rw [List.getElem?_set_ne (fun hcon => hw2 hcon.symm)]
              exact hw w2
          · simp only [statusOf, setStatus_getElem?_ne s.objs r0 r .baixando hr0]
            exact hst
        · simp only [step, hwk, hcd, if_false, ite_false]
          exact ⟨hlen, hq, hw, hst⟩
      | idle =>
        simp only [step, hwk]
        exact ⟨hlen, hq, hw, hst⟩
      | running r0 =>
        simp only [step, hwk]
        exact ⟨hlen, hq, hw, hst⟩
      | releasing =>
        simp only [step, hwk]
        exact ⟨hlen, hq, hw, hst⟩
  | finishOk w0 =>
    rcases hwk : s.workers[w0]? with _ | wst
    · simp only [step, hwk]
      exact ⟨hlen, hq, hw, hst⟩
    · cases wst with
      | running r0 =>
        have hr0 : r0 ≠ r := by
          intro hcon
          subst hcon
          exact (hw w0).2 hwk
        simp only [step, hwk]
        refine ⟨by simpa [setStatus_length] using hlen, hq, ?_, ?_⟩
        · intro w2
          by_cases hw2 : w2 = w0
          · subst hw2
            have hlt : w2 < s.workers.length := (List.getElem?_eq_some_iff.mp hwk).1
            simp [List.getElem?_set_self hlt]
          · rw [List.getElem?_set_ne (fun hcon => hw2 hcon.symm)]
            exact hw w2
        · simp only [statusOf, setStatus_getElem?_ne s.objs r0 r .concluido hr0]
          exact hst
      | idle =>
        simp only [step, hwk]
        exact ⟨hlen, hq, hw, hst⟩
      | holding r0 =>
        simp only [step, hwk]
        exact ⟨hlen, hq, hw, hst⟩
      | releasing =>
        simp only [step, hwk]
        exact ⟨hlen, hq, hw, hst⟩
  | finishErr w0 gotStream =>
    rcases hwk : s.workers[w0]? with _ | wst
    · simp only [step, hwk]
      exact ⟨hlen, hq, hw, hst⟩
    · cases wst with
      | running r0 =>
        have hr0 : r0 ≠ r := by
          intro hcon
          subst hcon
          exact (hw w0).2 hwk
        simp only [step, hwk]
        refine ⟨by simpa [setStatus_length] using hlen, hq, ?_, ?_⟩
        · intro w2
          by_cases hw2 : w2 = w0
          · subst hw2
            have hlt : w2 < s.workers.length := (List.getElem?_eq_some_iff.mp hwk).1
            simp [List.getElem?_set_self hlt]
          · rw [List.getElem?_set_ne (fun hcon => hw2 hcon.symm)]
            exact hw w2
        · simp only [statusOf, setStatus_getElem?_ne s.objs r0 r .erro hr0]
          exact hst
      | idle =>
        simp only [step, hwk]
        exact ⟨hlen, hq, hw, hst⟩
      | holding r0 =>
        simp only [step, hwk]
        exact ⟨hlen, hq, hw, hst⟩
      | releasing =>
        simp only [step, hwk]
        exact ⟨hlen, hq, hw, hst⟩
  | finishCancel w0 =>
    rcases hwk : s.workers[w0]? with _ | wst
    · simp only [step, hwk]
      exact ⟨hlen, hq, hw, hst⟩
    · cases wst with
      | running r0 =>
        have hr0 : r0 ≠ r := by
          intro hcon
          subst hcon
          exact (hw w0).2 hwk
        by_cases hc : idOf s r0 ∈ s.cancelled
        · simp only [step, hwk, hc, if_true, ite_true]
          refine ⟨by simpa [setStatus_length] using hlen, hq, ?_, ?_⟩
          · intro w2
            by_cases hw2 : w2 = w0
            · subst hw2
              have hlt : w2 < s.workers.length := (List.getElem?_eq_some_iff.mp hwk).1
              simp [List.getElem?_set_self hlt]
            · rw [List.getElem?_set_ne (fun hcon => hw2 hcon.symm)]
              exact hw w2
          · simp only [statusOf, setStatus_getElem?_ne s.objs r0 r .cancelado hr0]
            exact hst
        · simp only [step, hwk, hc, if_false, ite_false]
          exact ⟨hlen, hq, hw, hst⟩
      | idle =>
        simp only [step, hwk]
        exact ⟨hlen, hq, hw, hst⟩
      | holding r0 =>
        simp only [step, hwk]
        exact ⟨hlen, hq, hw, hst⟩
      | releasing =>
        simp only [step, hwk]
        exact ⟨hlen, hq, hw, hst⟩
  | release w0 =>
    rcases hwk : s.workers[w0]? with _ | wst
    · simp only [step, hwk]
      exact ⟨hlen, hq, hw, hst⟩
    · cases wst with
      | releasing =>
        simp only [step, hwk]
        refine ⟨hlen, hq, ?_, hst⟩
        intro w2
        by_cases hw2 : w2 = w0
        · subst hw2
          have hlt : w2 < s.workers.length := (List.getElem?_eq_some_iff.mp hwk).1
          simp [List.getElem?_set_self hlt]
        · rw [List.getElem?_set_ne (fun hcon => hw2 hcon.symm)]
          exact hw w2
      | idle =>
        simp only [step, hwk]
        exact ⟨hlen, hq, hw, hst⟩
      | holding r0 =>
        simp only [step, hwk]
        exact ⟨hlen, hq, hw, hst⟩
      | running r0 =>
        simp only [step, hwk]
        exact ⟨hlen, hq, hw, hst⟩
  | setMax n =>
    simp only [step]
    refine ⟨hlen, hq, ?_, hst⟩
    intro w2
    by_cases hw2 : w2 < s.workers.length
    · rw [List.getElem?_append_left hw2]
      exact hw w2
    · rw [List.getElem?_append_right (Nat.le_of_not_lt hw2)]
      rw [List.getElem?_replicate]
      by_cases hin : w2 - s.workers.length < max 1 n - s.workers.length
      · rw [if_pos hin]
        exact ⟨by simp, by simp⟩
      · rw [if_neg hin]
        exact ⟨by simp, by simp⟩
  | setChunk mb =>
    simp only [step]
    exact ⟨hlen, hq, hw, hst⟩

/-- Once a reference is out of the queue, held by no worker and not
Downloading, it can never become Downloading in any continuation. -/
theorem not_downloading_forever (r : Nat) :
    ∀ (evts : List Ev) (s : Ctrl),
      r < s.objs.length → r ∉ s.queue →
      (∀ w : Nat, s.workers[w]? ≠ some (WState.holding r) ∧ s.workers[w]? ≠ some (WState.running r)) →
      statusOf s r ≠ some .baixando →
      statusOf (run s evts) r ≠ some .baixando := by
  intro evts
  induction evts with
  | nil => intro s _ _ _ hst; exact hst
  | cons e rest ih =>
    intro s hlen hq hw hst
    obtain ⟨h1, h2, h3, h4⟩ := not_downloading_step r s e hlen hq hw hst
    exact ih (step s e) h1 h2 h3 h4

/-! ## C3: enqueue of an existing destination -/

/-- C3 counterexample: even when the destination file already exists,
queue_episode has already issued the client.get_item metadata request (line
107) before the existence check, so the enqueue is not free of network
access. -/
theorem c3_counterexample :
    (step_enqueue (initCtrl 1 1) "x" true).net = [NetOp.getItem "x"]
    ∧ ([NetOp.getItem "x"] : List NetOp) ≠ ([] : List NetOp) := by
  exact ⟨by decide, by decide⟩

/-- C3 (amended): when the destination file exists, queue_episode reports
"Ja existe" synchronously, queues nothing, opens no byte stream and touches
no worker; but it always performs exactly one network request first, the
client.get_item metadata fetch. -/
theorem c3_already_exists_synchronous_no_stream (s : Ctrl) (id : String) :
    (step_enqueue s id true).net = s.net ++ [NetOp.getItem id]
    ∧ (∀ i2 : String, NetOp.openStream i2 ∉ [NetOp.getItem id])
    ∧ (step_enqueue s id true).queue = s.queue
    ∧ (step_enqueue s id true).files = s.files
    ∧ (step_enqueue s id true).workers = s.workers
    ∧ (step_enqueue s id true).emits = s.emits ++ [(id, Status.jaExiste)] := by
  rcases hlk : s.items.lookup id with _ | r0 <;>
    simp [step_enqueue, hlk]

/-! ## C5: cancellation of a still-queued item -/

/-- C5 counterexample: enqueue, cancel before any dequeue, then the worker
dequeues: the item never downloads, but its state remains "Na fila" — it is
never set to "Cancelado" (lines 156-159 skip the item without emitting any
status). -/
theorem c5_counterexample :
    statusOf (run (initCtrl 1 1) [.enqueue "x" false, .cancel "x", .dequeue 0]) 0
      = some .naFila
    ∧ (run (initCtrl 1 1) [.enqueue "x" false, .cancel "x", .dequeue 0]).queue = []
    ∧ (run (initCtrl 1 1) [.enqueue "x" false, .cancel "x", .dequeue 0]).cancelled = []
    ∧ some Status.naFila ≠ some Status.cancelado := by
  exact ⟨by decide, by decide, by decide, by decide⟩

/-- C5 (amended): a cancellation recorded before the item is dequeued makes
the dequeuing worker consume the queue entry and the cancellation marker
without opening a stream, creating a file, or starting a download — the item
can never transition to Downloading afterwards — but the item state stays
"Na fila"; it is never set to "Cancelado". -/
theorem c5_cancel_before_dequeue (s : Ctrl) (w r : Nat) (rest : List Nat) (o : Obj)
    (hw : s.workers[w]? = some WState.idle)
    (hq : s.queue = r :: rest)
    (ho : s.objs[r]? = some o)
    (hc : o.id ∈ s.cancelled)
    (hst : o.status = .naFila)
    (hrest : r ∉ rest)
    (hheld : ∀ w2 < s.workers.length,
        s.workers[w2]? ≠ some (WState.holding r) ∧ s.workers[w2]? ≠ some (WState.running r)) :
    step s (.dequeue w) = { s with queue := rest, cancelled := s.cancelled.erase o.id }
    ∧ statusOf (step s (.dequeue w)) r = some .naFila
    ∧ (step s (.dequeue w)).net = s.net
    ∧ (step s (.dequeue w)).files = s.files
    ∧ ∀ evts : List Ev, statusOf (run (step s (.dequeue w)) evts) r ≠ some .baixando := by
  have hstep : step s (.dequeue w)
      = { s with queue := rest, cancelled := s.cancelled.erase o.id } := by
    simp only [step, hw, hq, ho, hc, if_true, ite_true]
  have hheld2 : ∀ w2 : Nat, s.workers[w2]? ≠ some (WState.holding r)
      ∧ s.workers[w2]? ≠ some (WState.running r) := by
    intro w2
    by_cases h2 : w2 < s.workers.length
    · exact hheld w2 h2
    · rw [getElem?_out_of_range s.workers w2 h2]
      exact ⟨by simp, by simp⟩
  have hstat : statusOf s r = some .naFila := by
    simp [statusOf, ho, hst]
  refine ⟨hstep, ?_, ?_, ?_, ?_⟩
  · rw [hstep]
    exact hstat
  · rw [hstep]
  · rw [hstep]
  · intro evts
    rw [hstep]
    apply not_downloading_forever r evts
    · exact (List.getElem?_eq_some_iff.mp ho).1
    · exact hrest
    · exact hheld2
    · simp [statusOf, ho, hst]

/-- C5 witness: the concrete enqueue-cancel-dequeue scenario. -/
theorem c5_witness :
    step (run (initCtrl 1 1) [.enqueue "x" false, .cancel "x"]) (.dequeue 0)
      = { run (initCtrl 1 1) [.enqueue "x" false, .cancel "x"] with
          queue := [],
          cancelled := (run (initCtrl 1 1) [.enqueue "x" false, .cancel "x"]).cancelled.erase "x" }
    ∧ statusOf (step (run (initCtrl 1 1) [.enqueue "x" false, .cancel "x"]) (.dequeue 0)) 0
      = some .naFila
    ∧ statusOf (run (step (run (initCtrl 1 1) [.enqueue "x" false, .cancel "x"]) (.dequeue 0))
        [.dequeue 0, .acquire 0]) 0 ≠ some .baixando := by
  obtain ⟨h1, h2, h3, h4, h5⟩ :=
    c5_cancel_before_dequeue (run (initCtrl 1 1) [.enqueue "x" false, .cancel "x"])
      0 0 [] ⟨"x", .naFila⟩ (by decide) (by decide) (by decide) (by decide) (by decide)
      (by decide) (by decide)
  exact ⟨h1, h2, h5 [.dequeue 0, .acquire 0]⟩

/-! ## C7: cancel on a terminal item -/

/-- C7 counterexample: item x fails terminally (stream open error, no file
created); cancel(x) is then called on the terminal item; a later re-enqueue
of x is silently skipped at dequeue (worker stays idle, item 1 stays "Na
fila" with an empty queue), whereas without the cancel the worker proceeds
to hold the new item — so the cancel was not a harmless no-op for later
enqueues. -/
theorem c7_counterexample :
    statusOf (run (initCtrl 1 1) [.enqueue "x" false, .dequeue 0, .acquire 0,
        .finishErr 0 false, .release 0]) 0 = some .erro
    ∧ (run (initCtrl 1 1) [.enqueue "x" false, .dequeue 0, .acquire 0,
        .finishErr 0 false, .release 0, .cancel "x", .enqueue "x" false, .dequeue 0]).workers
      = [.idle]
    ∧ statusOf (run (initCtrl 1 1) [.enqueue "x" false, .dequeue 0, .acquire 0,
        .finishErr 0 false, .release 0, .cancel "x", .enqueue "x" false, .dequeue 0]) 1
      = some .naFila
    ∧ (run (initCtrl 1 1) [.enqueue "x" false, .dequeue 0, .acquire 0,
        .finishErr 0 false, .release 0, .cancel "x", .enqueue "x" false, .dequeue 0]).queue = []
    ∧ (run (initCtrl 1 1) [.enqueue "x" false, .dequeue 0, .acquire 0,
        .finishErr 0 false, .release 0, .enqueue "x" false, .dequeue 0]).workers
      = [.holding 1] := by
  exact ⟨by decide, by decide, by decide, by decide, by decide⟩

/-- C7 (amended): cancel on any identifier — terminal or not — changes no
item, queue entry or worker, but records the identifier in the cancellation
set; and a state in which that marker is present when an object with the
identifier heads the queue makes the dequeuing worker skip that object
instead of downloading it, so a cancel issued against a terminal item does
affect the next enqueue of the same identifier. -/
theorem c7_cancel_terminal_poisons (s s2 : Ctrl) (i : String) (w r : Nat)
    (rest : List Nat) (o : Obj)
    (hw : s2.workers[w]? = some WState.idle)
    (hq : s2.queue = r :: rest)
    (ho : s2.objs[r]? = some o)
    (hoid : o.id = i)
    (hc : i ∈ s2.cancelled) :
    (step s (.cancel i)).objs = s.objs
    ∧ (step s (.cancel i)).queue = s.queue
    ∧ (step s (.cancel i)).workers = s.workers
    ∧ i ∈ (step s (.cancel i)).cancelled
    ∧ step s2 (.dequeue w) = { s2 with queue := rest, cancelled := s2.cancelled.erase i } := by
  refine ⟨rfl, rfl, rfl, ?_, ?_⟩
  · simp only [step, insertId]
    by_cases h : i ∈ s.cancelled
    · simp [h]
    · simp [h]
  · simp only [step, hw, hq, ho, hoid, hc, if_true, ite_true]

/-- C7 witness: the concrete poisoned re-enqueue scenario. -/
theorem c7_witness :
    (step (run (initCtrl 1 1) [.enqueue "x" false, .dequeue 0, .acquire 0,
        .finishErr 0 false, .release 0]) (.cancel "x")).objs
      = (run (initCtrl 1 1) [.enqueue "x" false, .dequeue 0, .acquire 0,
        .finishErr 0 false, .release 0]).objs
    ∧ "x" ∈ (step (run (initCtrl 1 1) [.enqueue "x" false, .dequeue 0, .acquire 0,
        .finishErr 0 false, .release 0]) (.cancel "x")).cancelled
    ∧ step (run (initCtrl 1 1) [.enqueue "x" false, .dequeue 0, .acquire 0,
        .finishErr 0 false, .release 0, .cancel "x", .enqueue "x" false]) (.dequeue 0)
      = { run (initCtrl 1 1) [.enqueue "x" false, .dequeue 0, .acquire 0,
            .finishErr 0 false, .release 0, .cancel "x", .enqueue "x" false] with
          queue := [],
          cancelled := (run (initCtrl 1 1) [.enqueue "x" false, .dequeue 0, .acquire 0,
            .finishErr 0 false, .release 0, .cancel "x", .enqueue "x" false]).cancelled.erase "x" } := by
  obtain ⟨h1, h2, h3, h4, h5⟩ :=
    c7_cancel_terminal_poisons
      (run (initCtrl 1 1) [.enqueue "x" false, .dequeue 0, .acquire 0,
        .finishErr 0 false, .release 0])
      (run (initCtrl 1 1) [.enqueue "x" false, .dequeue 0, .acquire 0,
        .finishErr 0 false, .release 0, .cancel "x", .enqueue "x" false])
      "x" 0 1 [] ⟨"x", .naFila⟩
      (by decide) (by decide) (by decide) (by decide) (by decide)
  exact ⟨h1, h4, h5⟩

/-! ## C1 and C4 counterexamples -/

/-- C1 counterexample: two transfers start under maxConcurrent 2, then
set_max_concurrent(1): both remain Downloading while maxConcurrent is 1, so
the instantaneous bound fails for sequences containing a downward resize. -/
theorem c1_counterexample :
    downloadingCount (run (initCtrl 2 1) [.enqueue "a" false, .enqueue "b" false,
      .dequeue 0, .acquire 0, .dequeue 1, .acquire 1, .setMax 1]) = 2
    ∧ (run (initCtrl 2 1) [.enqueue "a" false, .enqueue "b" false,
      .dequeue 0, .acquire 0, .dequeue 1, .acquire 1, .setMax 1]).max_concurrent = 1
    ∧ ¬ (2 : Nat) ≤ 1 := by
  exact ⟨by decide, by decide, by decide⟩

/-- C4 counterexample: item x fails mid-stream (partial file on disk), so
its state is the terminal "Erro"; a later enqueue of x with the destination
present overwrites the same item's state to "Ja existe" (line 125) — a
terminal state is left. -/
theorem c4_counterexample :
    statusOf (run (initCtrl 1 1) [.enqueue "x" false, .dequeue 0, .acquire 0,
        .finishErr 0 true, .release 0]) 0 = some .erro
    ∧ statusOf (run (initCtrl 1 1) [.enqueue "x" false, .dequeue 0, .acquire 0,
        .finishErr 0 true, .release 0, .enqueue "x" true]) 0 = some .jaExiste
    ∧ Status.erro ≠ Status.jaExiste := by
  exact ⟨by decide, by decide, by decide⟩

/-! ## Characterizations of each step -/

theorem step_cancel_eq (s : Ctrl) (i : String) :
    step s (.cancel i) = { s with cancelled := insertId s.cancelled i } := rfl

theorem step_setChunk_eq (s : Ctrl) (mb : ℚ) :
    step s (.setChunk mb) = { s with chunk_size := sanitize_chunk_size mb } := rfl

theorem step_setMax_eq (s : Ctrl) (n : Nat) :
    step s (.setMax n) = { s with
      max_concurrent := max 1 n
      workers := s.workers ++ List.replicate (max 1 n - s.workers.length) .idle } := rfl

theorem step_enqueue_cases (s : Ctrl) (id : String) (ex : Bool) :
    (ex = true ∧ ∃ r0, s.items.lookup id = some r0 ∧
      step s (.enqueue id ex) = { s with
        net := s.net ++ [.getItem id]
        objs := setStatus s.objs r0 .jaExiste
        emits := s.emits ++ [(id, .jaExiste)] })
    ∨ (ex = true ∧ s.items.lookup id = none ∧
      step s (.enqueue id ex) = { s with
        net := s.net ++ [.getItem id]
        emits := s.emits ++ [(id, .jaExiste)] })
    ∨ (ex = false ∧
      step s (.enqueue id ex) = { s with
        net := s.net ++ [.getItem id]
        objs := s.objs ++ [⟨id, .naFila⟩]
        items := setAssoc s.items id s.objs.length
        queue := s.queue ++ [s.objs.length]
        emits := s.emits ++ [(id, .naFila)] }) := by
  cases ex with
  | false =>
    right; right
    exact ⟨rfl, rfl⟩
  | true =>
    rcases hlk : s.items.lookup id with _ | r0
    · right; left
      exact ⟨rfl, rfl, by simp [step, step_enqueue, hlk]⟩
    · left
      exact ⟨rfl, r0, rfl, by simp [step, step_enqueue, hlk]⟩

theorem step_dequeue_cases (s : Ctrl) (w0 : Nat) :
    step s (.dequeue w0) = s
    ∨ (∃ r rest o, s.workers[w0]? = some WState.idle ∧ s.queue = r :: rest
        ∧ s.objs[r]? = some o ∧ o.id ∈ s.cancelled
        ∧ step s (.dequeue w0) = { s with
            queue := rest
            cancelled := s.cancelled.erase o.id })
    ∨ (∃ r rest o, s.workers[w0]? = some WState.idle ∧ s.queue = r :: rest
        ∧ s.objs[r]? = some o ∧ o.id ∉ s.cancelled
        ∧ step s (.dequeue w0) = { s with
            queue := rest
            workers := s.workers.set w0 (WState.holding r) }) := by
  rcases hwk : s.workers[w0]? with _ | wst
  · left
    simp [step, hwk]
  · cases wst with
    | idle =>
      rcases hqd : s.queue with _ | ⟨r, rest⟩
      · left
        simp [step, hwk, hqd]
      · rcases ho : s.objs[r]? with _ | o
        · left
          simp [step, hwk, hqd, ho]
        · by_cases hc : o.id ∈ s.cancelled
          · right; left
            exact ⟨r, rest, o, rfl, rfl, ho, hc, by simp [step, hwk, hqd, ho, hc]⟩
          · right; right
            exact ⟨r, rest, o, rfl, rfl, ho, hc, by simp [step, hwk, hqd, ho, hc]⟩
    | holding r =>
      left
      simp [step, hwk]
    | running r =>
      left
      simp [step, hwk]
    | releasing =>
      left
      simp [step, hwk]

theorem step_acquire_cases (s : Ctrl) (w0 : Nat) :
    step s (.acquire w0) = s
    ∨ (∃ r, s.workers[w0]? = some (WState.holding r)
        ∧ s.current_downloads < s.max_concurrent
        ∧ step s (.acquire w0) = { s with
            current_downloads := s.current_downloads + 1
            objs := setStatus s.objs r .baixando
            workers := s.workers.set w0 (WState.running r)
            emits := s.emits ++ [(idOf s r, .baixando)] }) := by
  rcases hwk : s.workers[w0]? with _ | wst
  · left
    simp [step, hwk]
  · cases wst with
    | holding r =>
      by_cases hcd : s.current_downloads < s.max_concurrent
      · right
        exact ⟨r, rfl, hcd, by simp [step, hwk, hcd]⟩
      · left
        simp [step, hwk, hcd]
    | idle =>
      left
      simp [step, hwk]
    | running r =>
      left
      simp [step, hwk]
    | releasing =>
      left
      simp [step, hwk]

theorem step_finishOk_cases (s : Ctrl) (w0 : Nat) :
    step s (.finishOk w0) = s
    ∨ (∃ r, s.workers[w0]? = some (WState.running r)
        ∧ step s (.finishOk w0) = { s with
            objs := setStatus s.objs r .concluido
            workers := s.workers.set w0 .releasing
            net := s.net ++ [.openStream (idOf s r)]
            files := s.files ++ [r]
            emits := s.emits ++ [(idOf s r, .concluido)] }) := by
  rcases hwk : s.workers[w0]? with _ | wst
  · left
    simp [step, hwk]
  · cases wst with
    | running r =>
      right
      exact ⟨r, rfl, by simp [step, hwk]⟩
    | idle =>
      left
      simp [step, hwk]
    | holding r =>
      left
      simp [step, hwk]
    | releasing =>
      left
      simp [step, hwk]

theorem step_finishErr_cases (s : Ctrl) (w0 : Nat) (g : Bool) :
    step s (.finishErr w0 g) = s
    ∨ (∃ r, s.workers[w0]? = some (WState.running r)
        ∧ step s (.finishErr w0 g) = { s with
            objs := setStatus s.objs r .erro
            workers := s.workers.set w0 .releasing
            net := s.net ++ [.openStream (idOf s r)]
            files := if g then s.files ++ [r] else s.files
            emits := s.emits ++ [(idOf s r, .erro)] }) := by
  rcases hwk : s.workers[w0]? with _ | wst
  · left
    simp [step, hwk]
  · cases wst with
    | running r =>
      right
      exact ⟨r, rfl, by simp [step, hwk]⟩
    | idle =>
      left
      simp [step, hwk]
    | holding r =>
      left
      simp [step, hwk]
    | releasing =>
      left
      simp [step, hwk]

theorem step_finishCancel_cases (s : Ctrl) (w0 : Nat) :
    step s (.finishCancel w0) = s
    ∨ (∃ r, s.workers[w0]? = some (WState.running r)
        ∧ idOf s r ∈ s.cancelled
        ∧ step s (.finishCancel w0) = { s with
            objs := setStatus s.objs r .cancelado
            workers := s.workers.set w0 .releasing
            cancelled := s.cancelled.erase (idOf s r)
            net := s.net ++ [.openStream (idOf s r)]
            files := s.files ++ [r]
            emits := s.emits ++ [(idOf s r, .cancelado)] }) := by
  rcases hwk : s.workers[w0]? with _ | wst
  · left
    simp [step, hwk]
  · cases wst with
    | running r =>
      by_cases hc : idOf s r ∈ s.cancelled
      · right
        exact ⟨r, rfl, hc, by simp [step, hwk, hc]⟩
      · left
        simp [step, hwk, hc]
    | idle =>
      left
      simp [step, hwk]
    | holding r =>
      left
      simp [step, hwk]
    | releasing =>
      left
      simp [step, hwk]

theorem step_release_cases (s : Ctrl) (w0 : Nat) :
    step s (.release w0) = s
    ∨ (s.workers[w0]? = some WState.releasing
        ∧ step s (.release w0) = { s with
            current_downloads := s.current_downloads - 1
            workers := s.workers.set w0 .idle }) := by
  rcases hwk : s.workers[w0]? with _ | wst
  · left
    simp [step, hwk]
  · cases wst with
    | releasing =>
      right
      exact ⟨rfl, by simp [step, hwk]⟩
    | idle =>
      left
      simp [step, hwk]
    | holding r =>
      left
      simp [step, hwk]
    | running r =>
      left
      simp [step, hwk]

/-! ## Invariant preservation -/

theorem countP_set_eq {α : Type} (p : α → Bool) :
    ∀ (l : List α) (w : Nat) (a b : α), l[w]? = some a →
      (l.set w b).countP p + (if p a then 1 else 0) = l.countP p + (if p b then 1 else 0) := by
  intro l
  induction l with
  | nil =>
    intro w a b h
    simp at h
  | cons x t ih =>
    intro w a b h
    cases w with
    | zero =>
      simp only [List.getElem?_cons_zero, Option.some.injEq] at h
      subst h
      simp only [List.set_cons_zero, List.countP_cons]
      omega
    | succ w2 =>
      simp only [List.getElem?_cons_succ] at h
      have := ih w2 a b h
      simp only [List.set_cons_succ, List.countP_cons]
      omega

theorem set_lookup {α : Type} (l : List α) (w0 : Nat) (x b : α) (h : l[w0]? = some x) (w : Nat) :
    (l.set w0 b)[w]? = if w = w0 then some b else l[w]? := by
  by_cases hw : w = w0
  · subst hw
    rw [if_pos rfl]
    exact List.getElem?_set_self ((List.getElem?_eq_some_iff.mp h).1)
  · rw [if_neg hw, List.getElem?_set_ne (fun hcon => hw hcon.symm)]

theorem statusOf_some_lt (s : Ctrl) (r : Nat) (st : Status) (h : statusOf s r = some st) :
    r < s.objs.length := by
  unfold statusOf at h
  rcases ho : s.objs[r]? with _ | o
  · rw [ho] at h
    simp at h
  · exact (List.getElem?_eq_some_iff.mp ho).1

theorem statusOf_obj (s : Ctrl) (r : Nat) (st : Status) (h : statusOf s r = some st) :
    ∃ o : Obj, s.objs[r]? = some o ∧ o.status = st := by
  unfold statusOf at h
  rcases ho : s.objs[r]? with _ | o
  · rw [ho] at h
    simp at h
  · rw [ho] at h
    simp at h
    exact ⟨o, rfl, h⟩

theorem inv_cancel (s : Ctrl) (i : String) (h : Inv s) : Inv (step s (.cancel i)) := by
  rw [step_cancel_eq]
  exact { cd_eq := h.cd_eq, down_run := h.down_run, queue_status := h.queue_status,
          holding_status := h.holding_status, running_status := h.running_status,
          held_distinct := h.held_distinct, held_not_queued := h.held_not_queued,
          queue_nodup := h.queue_nodup }

theorem inv_setChunk (s : Ctrl) (mb : ℚ) (h : Inv s) : Inv (step s (.setChunk mb)) := by
  rw [step_setChunk_eq]
  exact { cd_eq := h.cd_eq, down_run := h.down_run, queue_status := h.queue_status,
          holding_status := h.holding_status, running_status := h.running_status,
          held_distinct := h.held_distinct, held_not_queued := h.held_not_queued,
          queue_nodup := h.queue_nodup }

theorem inv_setMax (s : Ctrl) (n : Nat) (h : Inv s) : Inv (step s (.setMax n)) := by
  rw [step_setMax_eq]
  have hrep : ∀ w : Nat,
      (s.workers ++ List.replicate (max 1 n - s.workers.length) WState.idle)[w]?
        = s.workers[w]?
      ∨ ((s.workers ++ List.replicate (max 1 n - s.workers.length) WState.idle)[w]?
            = some WState.idle ∧ s.workers.length ≤ w)
      ∨ (s.workers ++ List.replicate (max 1 n - s.workers.length) WState.idle)[w]? = none := by
    intro w
    by_cases hw : w < s.workers.length
    · left
      exact List.getElem?_append_left hw
    · rw [List.getElem?_append_right (Nat.le_of_not_lt hw), List.getElem?_replicate]
      by_cases hin : w - s.workers.length < max 1 n - s.workers.length
      · right; left
        exact ⟨by rw [if_pos hin], Nat.le_of_not_lt hw⟩
      · right; right
        rw [if_neg hin]
  refine { cd_eq := ?_, down_run := ?_, queue_status := h.queue_status,
           holding_status := ?_, running_status := ?_,
           held_distinct := ?_, held_not_queued := ?_, queue_nodup := h.queue_nodup }
  · show s.current_downloads
        = (s.workers ++ List.replicate (max 1 n - s.workers.length) WState.idle).countP isBusyW
    rw [List.countP_append]
    have hz : (List.replicate (max 1 n - s.workers.length) WState.idle).countP isBusyW = 0 := by
      rw [List.countP_eq_length_filter, List.filter_replicate_of_neg (by simp [isBusyW])]
      rfl
    rw [hz]
    simpa using h.cd_eq
  · intro r hr
    obtain ⟨w, hw⟩ := h.down_run r hr
    refine ⟨w, ?_⟩
    rw [List.getElem?_append_left ((List.getElem?_eq_some_iff.mp hw).1)]
    exact hw
  · intro w r hw
    rcases hrep w with h2 | ⟨h2, _⟩ | h2
    · exact h.holding_status w r (h2 ▸ hw)
    · rw [h2] at hw
      cases hw
    · rw [h2] at hw
      cases hw
  · intro w r hw
    rcases hrep w with h2 | ⟨h2, _⟩ | h2
    · exact h.running_status w r (h2 ▸ hw)
    · rw [h2] at hw
      cases hw
    · rw [h2] at hw
      cases hw
  · intro w1 w2 r hw1 hw2
    have hold1 : s.workers[w1]? = some (WState.holding r)
        ∨ s.workers[w1]? = some (WState.running r) := by
      rcases hrep w1 with h2 | ⟨h2, _⟩ | h2
      · rw [← h2]
        exact hw1
      · rw [h2] at hw1
        rcases hw1 with hx | hx <;> cases hx
      · rw [h2] at hw1
        rcases hw1 with hx | hx <;> cases hx
    have hold2 : s.workers[w2]? = some (WState.holding r)
        ∨ s.workers[w2]? = some (WState.running r) := by
      rcases hrep w2 with h2 | ⟨h2, _⟩ | h2
      · rw [← h2]
        exact hw2
      · rw [h2] at hw2
        rcases hw2 with hx | hx <;> cases hx
      · rw [h2] at hw2
        rcases hw2 with hx | hx <;> cases hx
    exact h.held_distinct w1 w2 r hold1 hold2
  · intro w r hw
    have hold : s.workers[w]? = some (WState.holding r)
        ∨ s.workers[w]? = some (WState.running r) := by
      rcases hrep w with h2 | ⟨h2, _⟩ | h2
      · rw [← h2]
        exact hw
      · rw [h2] at hw
        rcases hw with hx | hx <;> cases hx
      · rw [h2] at hw
        rcases hw with hx | hx <;> cases hx
    exact h.held_not_queued w r hold

@[simp]
theorem statusOf_mk (mc cd cz : Nat) (q : List Nat) (objs : List Obj)
    (items : List (String × Nat)) (can : List String) (wk : List WState)
    (net : List NetOp) (files : List Nat) (emits : List (String × Status)) (r : Nat) :
    statusOf ⟨mc, cd, cz, q, objs, items, can, wk, net, files, emits⟩ r
      = (objs[r]?).map (·.status) := rfl

theorem setStatus_statusAt (objs : List Obj) (r0 : Nat) (st : Status) (r : Nat) :
    ((setStatus objs r0 st)[r]?).map (·.status)
      = if r = r0 ∧ (objs[r0]?).isSome then some st else (objs[r]?).map (·.status) := by
  by_cases hr : r = r0
  · subst hr
    rcases ho : objs[r]? with _ | o
    · rw [setStatus_of_none objs r st ho]
      simp [ho]
    · rw [setStatus_getElem?_self objs r st o ho]
      simp [ho]
  · rw [setStatus_getElem?_ne objs r0 r st (fun hcon => hr hcon.symm)]
    simp [hr]

theorem status_preserved_append (s : Ctrl) (obj : Obj) (r : Nat) (st : Status)
    (h : statusOf s r = some st) :
    ((s.objs ++ [obj])[r]?).map (·.status) = some st := by
  rw [List.getElem?_append_left (statusOf_some_lt s r st h)]
  exact h

theorem inv_enqueue (s : Ctrl) (id : String) (ex : Bool) (h : Inv s) :
    Inv (step s (.enqueue id ex)) := by
  rcases step_enqueue_cases s id ex with ⟨_, r0, hlk, heq⟩ | ⟨_, hlk, heq⟩ | ⟨_, heq⟩
  · -- destination exists and the id is registered: restamp to jaExiste
    rw [heq]
    refine { cd_eq := h.cd_eq, down_run := ?_, queue_status := ?_, holding_status := ?_,
             running_status := ?_, held_distinct := h.held_distinct,
             held_not_queued := h.held_not_queued, queue_nodup := h.queue_nodup }
    · intro r hr
      simp only [statusOf_mk, setStatus_statusAt] at hr
      by_cases hcond : r = r0 ∧ (s.objs[r0]?).isSome
      · rw [if_pos hcond] at hr
        cases hr
      · rw [if_neg hcond] at hr
        exact h.down_run r hr
    · intro r hrq
      simp only [statusOf_mk, setStatus_statusAt]
      by_cases hcond : r = r0 ∧ (s.objs[r0]?).isSome
      · rw [if_pos hcond]
        right
        rfl
      · rw [if_neg hcond]
        exact h.queue_status r hrq
    · intro w r hwd
      simp only [statusOf_mk, setStatus_statusAt]
      by_cases hcond : r = r0 ∧ (s.objs[r0]?).isSome
      · rw [if_pos hcond]
        right
        rfl
      · rw [if_neg hcond]
        exact h.holding_status w r hwd
    · intro w r hwd
      simp only [statusOf_mk, setStatus_statusAt]
      by_cases hcond : r = r0 ∧ (s.objs[r0]?).isSome
      · rw [if_pos hcond]
        right
        rfl
      · rw [if_neg hcond]
        exact h.running_status w r hwd
  · -- destination exists, id not registered: only net and emits change
    rw [heq]
    exact { cd_eq := h.cd_eq, down_run := h.down_run, queue_status := h.queue_status,
            holding_status := h.holding_status, running_status := h.running_status,
            held_distinct := h.held_distinct, held_not_queued := h.held_not_queued,
            queue_nodup := h.queue_nodup }
  · -- fresh item created, registered and queued
    rw [heq]
    refine { cd_eq := h.cd_eq, down_run := ?_, queue_status := ?_, holding_status := ?_,
             running_status := ?_, held_distinct := h.held_distinct,
             held_not_queued := ?_, queue_nodup := ?_ }
    · intro r hr
      simp only [statusOf_mk] at hr
      by_cases hrlen : r < s.objs.length
      · rw [List.getElem?_append_left hrlen] at hr
        exact h.down_run r hr
      · rw [List.getElem?_append_right (Nat.le_of_not_lt hrlen)] at hr
        by_cases hreq : r - s.objs.length = 0
        · rw [hreq] at hr
          simp at hr
        · rw [List.getElem?_eq_none
            (by simpa using Nat.one_le_iff_ne_zero.mpr hreq)] at hr
          cases hr
    · intro r hrq
      rcases List.mem_append.mp hrq with hm | hm
      · rcases h.queue_status r hm with hs | hs
        · left
          simp only [statusOf_mk]
          exact status_preserved_append s _ r _ hs
        · right
          simp only [statusOf_mk]
          exact status_preserved_append s _ r _ hs
      · simp at hm
        subst hm
        left
        simp only [statusOf_mk]
        rw [List.getElem?_concat_length]
        rfl
    · intro w r hwd
      rcases h.holding_status w r hwd with hs | hs
      · left
        simp only [statusOf_mk]
        exact status_preserved_append s _ r _ hs
      · right
        simp only [statusOf_mk]
        exact status_preserved_append s _ r _ hs
    · intro w r hwd
      rcases h.running_status w r hwd with hs | hs
      · left
        simp only [statusOf_mk]
        exact status_preserved_append s _ r _ hs
      · right
        simp only [statusOf_mk]
        exact status_preserved_append s _ r _ hs
    · intro w r hwd hmem
      rcases List.mem_append.mp hmem with hm | hm
      · exact h.held_not_queued w r hwd hm
      · simp at hm
        subst hm
        rcases hwd with hx | hx
        · rcases h.holding_status _ _ hx with hs | hs <;>
            exact absurd (statusOf_some_lt s _ _ hs) (lt_irrefl _)
        · rcases h.running_status _ _ hx with hs | hs <;>
            exact absurd (statusOf_some_lt s _ _ hs) (lt_irrefl _)
    · rw [List.nodup_append]
      refine ⟨h.queue_nodup, List.nodup_singleton _, ?_⟩
      intro a ha hb
      simp at hb
      rw [hb] at ha
      rcases h.queue_status _ ha with hs | hs <;>
        exact absurd (statusOf_some_lt s _ _ hs) (lt_irrefl _)

theorem inv_dequeue (s : Ctrl) (w0 : Nat) (h : Inv s) : Inv (step s (.dequeue w0)) := by
  rcases step_dequeue_cases s w0 with heq | ⟨r, rest, o, hwk, hqd, ho, hc, heq⟩
    | ⟨r, rest, o, hwk, hqd, ho, hc, heq⟩
  · rw [heq]
    exact h
  · -- cancelled-at-dequeue skip path
    rw [heq]
    refine { cd_eq := h.cd_eq, down_run := h.down_run,
             queue_status := ?_, holding_status := h.holding_status,
             running_status := h.running_status, held_distinct := h.held_distinct,
             held_not_queued := ?_, queue_nodup := ?_ }
    · intro r2 hr2
      exact h.queue_status r2 (by rw [hqd]; exact List.mem_cons_of_mem r hr2)
    · intro w r2 hwd hmem
      exact h.held_not_queued w r2 hwd (by rw [hqd]; exact List.mem_cons_of_mem r hmem)
    · have hnd := h.queue_nodup
      rw [hqd] at hnd
      exact hnd.of_cons
  · -- hold path
    rw [heq]
    have hwlt : w0 < s.workers.length := (List.getElem?_eq_some_iff.mp hwk).1
    have hnd := h.queue_nodup
    rw [hqd] at hnd
    have hrn : r ∉ rest := (List.nodup_cons.mp hnd).1
    refine { cd_eq := ?_, down_run := ?_, queue_status := ?_, holding_status := ?_,
             running_status := ?_, held_distinct := ?_, held_not_queued := ?_,
             queue_nodup := (List.nodup_cons.mp hnd).2 }
    · have hcp := countP_set_eq isBusyW s.workers w0 WState.idle (WState.holding r) hwk
      simp [isBusyW] at hcp
      show s.current_downloads = (s.workers.set w0 (WState.holding r)).countP isBusyW
      rw [hcp]
      exact h.cd_eq
    · intro r2 hr2
      obtain ⟨w, hw⟩ := h.down_run r2 hr2
      have hwne : w ≠ w0 := by
        intro hcon
        rw [hcon, hwk] at hw
        cases hw
      refine ⟨w, ?_⟩
      rw [set_lookup s.workers w0 WState.idle (WState.holding r) hwk w, if_neg hwne]
      exact hw
    · intro r2 hr2
      exact h.queue_status r2 (by rw [hqd]; exact List.mem_cons_of_mem r hr2)
    · intro w r2 hwd
      rw [set_lookup s.workers w0 WState.idle (WState.holding r) hwk w] at hwd
      by_cases hw2 : w = w0
      · rw [if_pos hw2] at hwd
        simp at hwd
        rw [← hwd]
        exact h.queue_status r (by rw [hqd]; exact List.mem_cons_self r rest)
      · rw [if_neg hw2] at hwd
        exact h.holding_status w r2 hwd
    · intro w r2 hwd
      rw [set_lookup s.workers w0 WState.idle (WState.holding r) hwk w] at hwd
      by_cases hw2 : w = w0
      · rw [if_pos hw2] at hwd
        simp at hwd
      · rw [if_neg hw2] at hwd
        exact h.running_status w r2 hwd
    · intro w1 w2 r2 h1 h2
      rw [set_lookup s.workers w0 WState.idle (WState.holding r) hwk w1] at h1
      rw [set_lookup s.workers w0 WState.idle (WState.holding r) hwk w2] at h2
      by_cases hw1 : w1 = w0 <;> by_cases hw2v : w2 = w0
      · rw [hw1, hw2v]
      · rw [if_pos hw1] at h1
        rw [if_neg hw2v] at h2
        exfalso
        have hr2 : r2 = r := by
          rcases h1 with hx | hx
          · simp at hx
            exact hx.symm
          · simp at hx
        rw [hr2] at h2
        exact h.held_not_queued w2 r h2 (by rw [hqd]; exact List.mem_cons_self r rest)
      · rw [if_neg hw1] at h1
        rw [if_pos hw2v] at h2
        exfalso
        have hr2 : r2 = r := by
          rcases h2 with hx | hx
          · simp at hx
            exact hx.symm
          · simp at hx
        rw [hr2] at h1
        exact h.held_not_queued w1 r h1 (by rw [hqd]; exact List.mem_cons_self r rest)
      · rw [if_neg hw1] at h1
        rw [if_neg hw2v] at h2
        exact h.held_distinct w1 w2 r2 h1 h2
    · intro w r2 hwd hmem
      rw [set_lookup s.workers w0 WState.idle (WState.holding r) hwk w] at hwd
      by_cases hw2 : w = w0
      · rw [if_pos hw2] at hwd
        have hr2 : r2 = r := by
          rcases hwd with hx | hx
          · simp at hx
            exact hx.symm
          · simp at hx
        rw [hr2] at hmem
        exact hrn hmem
      · rw [if_neg hw2] at hwd
        exact h.held_not_queued w r2 hwd (by rw [hqd]; exact List.mem_cons_of_mem r hmem)

theorem inv_acquire (s : Ctrl) (w0 : Nat) (h : Inv s) : Inv (step s (.acquire w0)) := by
  rcases step_acquire_cases s w0 with heq | ⟨r, hwk, hcd, heq⟩
  · rw [heq]
    exact h
  · rw [heq]
    have hwlt : w0 < s.workers.length := (List.getElem?_eq_some_iff.mp hwk).1
    have hnq : r ∉ s.queue := h.held_not_queued w0 r (Or.inl hwk)
    have hsome : (s.objs[r]?).isSome := by
      rcases h.holding_status w0 r hwk with hs | hs <;>
      · obtain ⟨o, ho2, _⟩ := statusOf_obj s r _ hs
        rw [ho2]
        rfl
    refine { cd_eq := ?_, down_run := ?_, queue_status := ?_, holding_status := ?_,
             running_status := ?_, held_distinct := ?_, held_not_queued := ?_,
             queue_nodup := h.queue_nodup }
    · have hcp := countP_set_eq isBusyW s.workers w0 (WState.holding r) (WState.running r) hwk
      simp [isBusyW] at hcp
      show s.current_downloads + 1 = (s.workers.set w0 (WState.running r)).countP isBusyW
      have hce := h.cd_eq
      omega
    · intro r2 hr2
      simp only [statusOf_mk, setStatus_statusAt] at hr2
      by_cases hcond : r2 = r ∧ (s.objs[r]?).isSome
      · refine ⟨w0, ?_⟩
        rw [set_lookup s.workers w0 (WState.holding r) (WState.running r) hwk w0, if_pos rfl]
        rw [hcond.1]
      · rw [if_neg hcond] at hr2
        obtain ⟨w, hw⟩ := h.down_run r2 hr2
        have hwne : w ≠ w0 := by
          intro hcon
          rw [hcon, hwk] at hw
          cases hw
        refine ⟨w, ?_⟩
        rw [set_lookup s.workers w0 (WState.holding r) (WState.running r) hwk w, if_neg hwne]
        exact hw
    · intro r2 hr2q
      simp only [statusOf_mk, setStatus_statusAt]
      rw [if_neg (by
        intro hx
        rw [hx.1] at hr2q
        exact hnq hr2q)]
      exact h.queue_status r2 hr2q
    · intro w r2 hwd
      rw [set_lookup s.workers w0 (WState.holding r) (WState.running r) hwk w] at hwd
      by_cases hw2 : w = w0
      · rw [if_pos hw2] at hwd
        simp at hwd
      · rw [if_neg hw2] at hwd
        have hr2ne : r2 ≠ r := by
          intro hcon
          exact hw2 (h.held_distinct w w0 r (by rw [← hcon]; exact Or.inl hwd) (Or.inl hwk))
        simp only [statusOf_mk, setStatus_statusAt]
        rw [if_neg (by intro hx; exact hr2ne hx.1)]
        exact h.holding_status w r2 hwd
    · intro w r2 hwd
      rw [set_lookup s.workers w0 (WState.holding r) (WState.running r) hwk w] at hwd
      by_cases hw2 : w = w0
      · rw [if_pos hw2] at hwd
        simp at hwd
        left
        simp only [statusOf_mk, setStatus_statusAt]
        rw [if_pos ⟨hwd.symm, hsome⟩]
      · rw [if_neg hw2] at hwd
        have hr2ne : r2 ≠ r := by
          intro hcon
          exact hw2 (h.held_distinct w w0 r (by rw [← hcon]; exact Or.inr hwd) (Or.inl hwk))
        simp only [statusOf_mk, setStatus_statusAt]
        rw [if_neg (by intro hx; exact hr2ne hx.1)]
        exact h.running_status w r2 hwd
    · intro w1 w2 r2 h1 h2
      rw [set_lookup s.workers w0 (WState.holding r) (WState.running r) hwk w1] at h1
      rw [set_lookup s.workers w0 (WState.holding r) (WState.running r) hwk w2] at h2
      by_cases hw1 : w1 = w0 <;> by_cases hw2v : w2 = w0
      · rw [hw1, hw2v]
      · rw [if_pos hw1] at h1
        rw [if_neg hw2v] at h2
        have hr2 : r2 = r := by
          rcases h1 with hx | hx
          · simp at hx
          · simp at hx
            exact hx.symm
        rw [hr2] at h2
        exact absurd (h.held_distinct w2 w0 r h2 (Or.inl hwk)) hw2v
      · rw [if_neg hw1] at h1
        rw [if_pos hw2v] at h2
        have hr2 : r2 = r := by
          rcases h2 with hx | hx
          · simp at hx
          · simp at hx
            exact hx.symm
        rw [hr2] at h1
        exact absurd (h.held_distinct w1 w0 r h1 (Or.inl hwk)) hw1
      · rw [if_neg hw1] at h1
        rw [if_neg hw2v] at h2
        exact h.held_distinct w1 w2 r2 h1 h2
    · intro w r2 hwd hmem
      rw [set_lookup s.workers w0 (WState.holding r) (WState.running r) hwk w] at hwd
      by_cases hw2 : w = w0
      · rw [if_pos hw2] at hwd
        have hr2 : r2 = r := by
          rcases hwd with hx | hx
          · simp at hx
          · simp at hx
            exact hx.symm
        rw [hr2] at hmem
        exact hnq hmem
      · rw [if_neg hw2] at hwd
        exact h.held_not_queued w r2 hwd hmem

/-- Common invariant argument for the three finish transitions: the running
worker stamps its object with a terminal status and moves to releasing. -/
theorem inv_finish_core (s : Ctrl) (w0 r : Nat) (st2 : Status)
    (hwk : s.workers[w0]? = some (WState.running r))
    (hne : st2 ≠ .baixando)
    (h : Inv s) :
    Inv { s with
      objs := setStatus s.objs r st2
      workers := s.workers.set w0 .releasing } := by
  have hwlt : w0 < s.workers.length := (List.getElem?_eq_some_iff.mp hwk).1
  have hnq : r ∉ s.queue := h.held_not_queued w0 r (Or.inr hwk)
  refine { cd_eq := ?_, down_run := ?_, queue_status := ?_, holding_status := ?_,
           running_status := ?_, held_distinct := ?_, held_not_queued := ?_,
           queue_nodup := h.queue_nodup }
  · have hcp := countP_set_eq isBusyW s.workers w0 (WState.running r) WState.releasing hwk
    simp [isBusyW] at hcp
    show s.current_downloads = (s.workers.set w0 WState.releasing).countP isBusyW
    rw [hcp]
    exact h.cd_eq
  · intro r2 hr2
    simp only [statusOf_mk, setStatus_statusAt] at hr2
    by_cases hcond : r2 = r ∧ (s.objs[r]?).isSome
    · rw [if_pos hcond] at hr2
      exact absurd (Option.some.inj hr2) hne
    · rw [if_neg hcond] at hr2
      obtain ⟨w, hw⟩ := h.down_run r2 hr2
      have hwne : w ≠ w0 := by
        intro hcon
        rw [hcon, hwk] at hw
        simp at hw
        apply hcond
        refine ⟨hw.symm, ?_⟩
        rw [hw]
        obtain ⟨o, ho2, _⟩ := statusOf_obj s r2 _ hr2
        rw [ho2]
        rfl
      refine ⟨w, ?_⟩
      rw [set_lookup s.workers w0 (WState.running r) WState.releasing hwk w, if_neg hwne]
      exact hw
  · intro r2 hr2q
    simp only [statusOf_mk, setStatus_statusAt]
    rw [if_neg (by
      intro hx
      rw [hx.1] at hr2q
      exact hnq hr2q)]
    exact h.queue_status r2 hr2q
  · intro w r2 hwd
    rw [set_lookup s.workers w0 (WState.running r) WState.releasing hwk w] at hwd
    by_cases hw2 : w = w0
    · rw [if_pos hw2] at hwd
      cases hwd
    · rw [if_neg hw2] at hwd
      have hr2ne : r2 ≠ r := by
        intro hcon
        exact hw2 (h.held_distinct w w0 r (by rw [← hcon]; exact Or.inl hwd) (Or.inr hwk))
      simp only [statusOf_mk, setStatus_statusAt]
      rw [if_neg (by intro hx; exact hr2ne hx.1)]
      exact h.holding_status w r2 hwd
  · intro w r2 hwd
    rw [set_lookup s.workers w0 (WState.running r) WState.releasing hwk w] at hwd
    by_cases hw2 : w = w0
    · rw [if_pos hw2] at hwd
      cases hwd
    · rw [if_neg hw2] at hwd
      have hr2ne : r2 ≠ r := by
        intro hcon
        exact hw2 (h.held_distinct w w0 r (by rw [← hcon]; exact Or.inr hwd) (Or.inr hwk))
      simp only [statusOf_mk, setStatus_statusAt]
      rw [if_neg (by intro hx; exact hr2ne hx.1)]
      exact h.running_status w r2 hwd
  · intro w1 w2 r2 h1 h2
    rw [set_lookup s.workers w0 (WState.running r) WState.releasing hwk w1] at h1
    rw [set_lookup s.workers w0 (WState.running r) WState.releasing hwk w2] at h2
    by_cases hw1 : w1 = w0
    · rw [if_pos hw1] at h1
      rcases h1 with hx | hx <;> cases hx
    · by_cases hw2v : w2 = w0
      · rw [if_pos hw2v] at h2
        rcases h2 with hx | hx <;> cases hx
      · rw [if_neg hw1] at h1
        rw [if_neg hw2v] at h2
        exact h.held_distinct w1 w2 r2 h1 h2
  · intro w r2 hwd hmem
    rw [set_lookup s.workers w0 (WState.running r) WState.releasing hwk w] at hwd
    by_cases hw2 : w = w0
    · rw [if_pos hw2] at hwd
      rcases hwd with hx | hx <;> cases hx
    · rw [if_neg hw2] at hwd
      exact h.held_not_queued w r2 hwd hmem

theorem inv_finishOk (s : Ctrl) (w0 : Nat) (h : Inv s) : Inv (step s (.finishOk w0)) := by
  rcases step_finishOk_cases s w0 with heq | ⟨r, hwk, heq⟩
  · rw [heq]
    exact h
  · rw [heq]
    have hcore := inv_finish_core s w0 r .concluido hwk (by simp) h
    exact { cd_eq := hcore.cd_eq, down_run := hcore.down_run,
            queue_status := hcore.queue_status, holding_status := hcore.holding_status,
            running_status := hcore.running_status, held_distinct := hcore.held_distinct,
            held_not_queued := hcore.held_not_queued, queue_nodup := hcore.queue_nodup }

theorem inv_finishErr (s : Ctrl) (w0 : Nat) (g : Bool) (h : Inv s) :
    Inv (step s (.finishErr w0 g)) := by
  rcases step_finishErr_cases s w0 g with heq | ⟨r, hwk, heq⟩
  · rw [heq]
    exact h
  · rw [heq]
    have hcore := inv_finish_core s w0 r .erro hwk (by simp) h
    exact { cd_eq := hcore.cd_eq, down_run := hcore.down_run,
            queue_status := hcore.queue_status, holding_status := hcore.holding_status,
            running_status := hcore.running_status, held_distinct := hcore.held_distinct,
            held_not_queued := hcore.held_not_queued, queue_nodup := hcore.queue_nodup }

theorem inv_finishCancel (s : Ctrl) (w0 : Nat) (h : Inv s) :
    Inv (step s (.finishCancel w0)) := by
  rcases step_finishCancel_cases s w0 with heq | ⟨r, hwk, hc, heq⟩
  · rw [heq]
    exact h
  · rw [heq]
    have hcore := inv_finish_core s w0 r .cancelado hwk (by simp) h
    exact { cd_eq := hcore.cd_eq, down_run := hcore.down_run,
            queue_status := hcore.queue_status, holding_status := hcore.holding_status,
            running_status := hcore.running_status, held_distinct := hcore.held_distinct,
            held_not_queued := hcore.held_not_queued, queue_nodup := hcore.queue_nodup }

theorem inv_release (s : Ctrl) (w0 : Nat) (h : Inv s) : Inv (step s (.release w0)) := by
  rcases step_release_cases s w0 with heq | ⟨hwk, heq⟩
  · rw [heq]
    exact h
  · rw [heq]
    refine { cd_eq := ?_, down_run := ?_, queue_status := h.queue_status,
             holding_status := ?_, running_status := ?_, held_distinct := ?_,
             held_not_queued := ?_, queue_nodup := h.queue_nodup }
    · have hcp := countP_set_eq isBusyW s.workers w0 WState.releasing WState.idle hwk
      simp [isBusyW] at hcp
      show s.current_downloads - 1 = (s.workers.set w0 WState.idle).countP isBusyW
      have hce := h.cd_eq
      omega
    · intro r2 hr2
      obtain ⟨w, hw⟩ := h.down_run r2 hr2
      have hwne : w ≠ w0 := by
        intro hcon
        rw [hcon, hwk] at hw
        cases hw
      refine ⟨w, ?_⟩
      rw [set_lookup s.workers w0 WState.releasing WState.idle hwk w, if_neg hwne]
      exact hw
    · intro w r2 hwd
      rw [set_lookup s.workers w0 WState.releasing WState.idle hwk w] at hwd
      by_cases hw2 : w = w0
      · rw [if_pos hw2] at hwd
        cases hwd
      · rw [if_neg hw2] at hwd
        exact h.holding_status w r2 hwd
    · intro w r2 hwd
      rw [set_lookup s.workers w0 WState.releasing WState.idle hwk w] at hwd
      by_cases hw2 : w = w0
      · rw [if_pos hw2] at hwd
        cases hwd
      · rw [if_neg hw2] at hwd
        exact h.running_status w r2 hwd
    · intro w1 w2 r2 h1 h2
      rw [set_lookup s.workers w0 WState.releasing WState.idle hwk w1] at h1
      rw [set_lookup s.workers w0 WState.releasing WState.idle hwk w2] at h2
      by_cases hw1 : w1 = w0
      · rw [if_pos hw1] at h1
        rcases h1 with hx | hx <;> cases hx
      · by_cases hw2v : w2 = w0
        · rw [if_pos hw2v] at h2
          rcases h2 with hx | hx <;> cases hx
        · rw [if_neg hw1] at h1
          rw [if_neg hw2v] at h2
          exact h.held_distinct w1 w2 r2 h1 h2
    · intro w r2 hwd hmem
      rw [set_lookup s.workers w0 WState.releasing WState.idle hwk w] at hwd
      by_cases hw2 : w = w0
      · rw [if_pos hw2] at hwd
        rcases hwd with hx | hx <;> cases hx
      · rw [if_neg hw2] at hwd
        exact h.held_not_queued w r2 hwd hmem

/-- The invariant is preserved by every step. -/
theorem step_inv (s : Ctrl) (e : Ev) (h : Inv s) : Inv (step s e) := by
  cases e with
  | enqueue id ex => exact inv_enqueue s id ex h
  | cancel id => exact inv_cancel s id h
  | dequeue w0 => exact inv_dequeue s w0 h
  | acquire w0 => exact inv_acquire s w0 h
  | finishOk w0 => exact inv_finishOk s w0 h
  | finishErr w0 g => exact inv_finishErr s w0 g h
  | finishCancel w0 => exact inv_finishCancel s w0 h
  | release w0 => exact inv_release s w0 h
  | setMax n => exact inv_setMax s n h
  | setChunk mb => exact inv_setChunk s mb h

/-- The invariant holds in the initial state. -/
theorem inv_init (maxC : Nat) (chunkMb : ℚ) : Inv (initCtrl maxC chunkMb) := by
  refine { cd_eq := ?_, down_run := ?_, queue_status := ?_, holding_status := ?_,
           running_status := ?_, held_distinct := ?_, held_not_queued := ?_,
           queue_nodup := List.nodup_nil }
  · show 0 = (List.replicate (max 1 maxC) WState.idle).countP isBusyW
    rw [List.countP_eq_length_filter, List.filter_replicate_of_neg (by simp [isBusyW])]
    rfl
  · intro r hr
    simp [statusOf, initCtrl] at hr
  · intro r hr
    simp [initCtrl] at hr
  · intro w r hw
    rw [show (initCtrl maxC chunkMb).workers = List.replicate (max 1 maxC) WState.idle
      from rfl, List.getElem?_replicate] at hw
    by_cases hin : w < max 1 maxC
    · rw [if_pos hin] at hw
      cases hw
    · rw [if_neg hin] at hw
      cases hw
  · intro w r hw
    rw [show (initCtrl maxC chunkMb).workers = List.replicate (max 1 maxC) WState.idle
      from rfl, List.getElem?_replicate] at hw
    by_cases hin : w < max 1 maxC
    · rw [if_pos hin] at hw
      cases hw
    · rw [if_neg hin] at hw
      cases hw
  · intro w1 w2 r h1 h2
    rw [show (initCtrl maxC chunkMb).workers = List.replicate (max 1 maxC) WState.idle
      from rfl, List.getElem?_replicate] at h1
    by_cases hin : w1 < max 1 maxC
    · rw [if_pos hin] at h1
      rcases h1 with hx | hx <;> cases hx
    · rw [if_neg hin] at h1
      rcases h1 with hx | hx <;> cases hx
  · intro w r hw
    simp [initCtrl]

/-! ## Counting Downloading items against held slots -/

theorem card_filter_range_lookup {α : Type} (p : Option α → Bool) :
    ∀ l : List α, ((Finset.range l.length).filter (fun i => p l[i]? = true)).card
      = l.countP (fun a => p (some a)) := by
  intro l
  induction l using List.reverseRecOn with
  | nil => simp
  | append_singleton l a ih =>
    have hlen : (l ++ [a]).length = l.length + 1 := by simp
    rw [hlen, Finset.range_succ, Finset.filter_insert]
    have hcongr : Finset.filter (fun i => p (l ++ [a])[i]? = true) (Finset.range l.length)
        = Finset.filter (fun i => p l[i]? = true) (Finset.range l.length) := by
      apply Finset.filter_congr
      intro i hi
      rw [List.getElem?_append_left (Finset.mem_range.mp hi)]
    have hlast : p (l ++ [a])[l.length]? = p (some a) := by
      rw [List.getElem?_concat_length]
    have hcount : (l ++ [a]).countP (fun x => p (some x))
        = l.countP (fun x => p (some x)) + (if p (some a) = true then 1 else 0) := by
      rw [List.countP_append]
      simp [List.countP_cons]
    by_cases hpa : p (some a) = true
    · rw [if_pos (by rw [hlast]; exact hpa)]
      rw [Finset.card_insert_of_not_mem (by
        intro hmem
        exact absurd (Finset.mem_of_mem_filter _ hmem) (by simp))]
      rw [hcongr, ih, hcount, if_pos hpa]
    · rw [if_neg (by rw [hlast]; exact hpa)]
      rw [hcongr, ih, hcount, if_neg hpa]
      omega

/-- In any state satisfying the invariant, the number of Downloading items is
at most current_downloads: every Downloading item is being run by a distinct
worker, and every running worker holds a slot. -/
theorem inv_downloading_le_cd (s : Ctrl) (h : Inv s) :
    downloadingCount s ≤ s.current_downloads := by
  have hmap : ∀ r : ℕ, ∃ w : ℕ, r ∈ downSet s →
      (w ∈ runSet s ∧ s.workers[w]? = some (WState.running r)) := by
    intro r
    by_cases hr : r ∈ downSet s
    · have hr2 : statusOf s r = some .baixando := by
        have := Finset.mem_filter.mp hr
        exact this.2
      obtain ⟨w, hw⟩ := h.down_run r hr2
      refine ⟨w, fun _ => ⟨?_, hw⟩⟩
      unfold runSet
      rw [Finset.mem_filter]
      refine ⟨Finset.mem_range.mpr ((List.getElem?_eq_some_iff.mp hw).1), ?_⟩
      rw [hw]
      rfl
    · exact ⟨0, fun hcon => absurd hcon hr⟩
  choose f hf using hmap
  have hcard : (downSet s).card ≤ (runSet s).card := by
    apply Finset.card_le_card_of_injOn f
    · intro r hr
      exact (hf r hr).1
    · intro r1 h1 r2 h2 heq
      have e1 := (hf r1 h1).2
      have e2 := (hf r2 h2).2
      rw [heq] at e1
      rw [e2] at e1
      simp at e1
      exact e1.symm
  have h2 : (runSet s).card = s.workers.countP (fun a => isRunningO (some a)) :=
    card_filter_range_lookup isRunningO s.workers
  have h3 : s.workers.countP (fun a => isRunningO (some a)) ≤ s.workers.countP isBusyW := by
    apply List.countP_mono_left
    intro x _ hx
    cases x <;> first
      | rfl
      | (simp [isRunningO] at hx)
  have h4 := h.cd_eq
  unfold downloadingCount
  omega

/-! ## The concurrency bound along shrink-free runs -/

theorem run_cons (s : Ctrl) (e : Ev) (rest : List Ev) :
    run s (e :: rest) = run (step s e) rest := rfl

theorem step_mc_eq (s : Ctrl) (e : Ev) (hne : ∀ n : Nat, e ≠ .setMax n) :
    (step s e).max_concurrent = s.max_concurrent := by
  cases e with
  | enqueue id ex =>
    rcases step_enqueue_cases s id ex with ⟨_, r0, _, heq⟩ | ⟨_, _, heq⟩ | ⟨_, heq⟩ <;> rw [heq]
  | cancel id => rfl
  | dequeue w0 =>
    rcases step_dequeue_cases s w0 with heq | ⟨r, rest, o, _, _, _, _, heq⟩
      | ⟨r, rest, o, _, _, _, _, heq⟩ <;> rw [heq]
  | acquire w0 =>
    rcases step_acquire_cases s w0 with heq | ⟨r, _, _, heq⟩ <;> rw [heq]
  | finishOk w0 =>
    rcases step_finishOk_cases s w0 with heq | ⟨r, _, heq⟩ <;> rw [heq]
  | finishErr w0 g =>
    rcases step_finishErr_cases s w0 g with heq | ⟨r, _, heq⟩ <;> rw [heq]
  | finishCancel w0 =>
    rcases step_finishCancel_cases s w0 with heq | ⟨r, _, _, heq⟩ <;> rw [heq]
  | release w0 =>
    rcases step_release_cases s w0 with heq | ⟨_, heq⟩ <;> rw [heq]
  | setMax n => exact absurd rfl (hne n)
  | setChunk mb => rfl

theorem step_cd_le (s : Ctrl) (e : Ev) (hcd : s.current_downloads ≤ s.max_concurrent)
    (hshrink : ∀ n : Nat, e = .setMax n → s.max_concurrent ≤ max 1 n) :
    (step s e).current_downloads ≤ (step s e).max_concurrent := by
  cases e with
  | enqueue id ex =>
    rcases step_enqueue_cases s id ex with ⟨_, r0, _, heq⟩ | ⟨_, _, heq⟩ | ⟨_, heq⟩ <;>
      rw [heq] <;> exact hcd
  | cancel id => exact hcd
  | dequeue w0 =>
    rcases step_dequeue_cases s w0 with heq | ⟨r, rest, o, _, _, _, _, heq⟩
      | ⟨r, rest, o, _, _, _, _, heq⟩ <;> rw [heq] <;> exact hcd
  | acquire w0 =>
    rcases step_acquire_cases s w0 with heq | ⟨r, hwk, hlt, heq⟩
    · rw [heq]
      exact hcd
    · rw [heq]
      exact hlt
  | finishOk w0 =>
    rcases step_finishOk_cases s w0 with heq | ⟨r, _, heq⟩ <;> rw [heq] <;> exact hcd
  | finishErr w0 g =>
    rcases step_finishErr_cases s w0 g with heq | ⟨r, _, heq⟩ <;> rw [heq] <;> exact hcd
  | finishCancel w0 =>
    rcases step_finishCancel_cases s w0 with heq | ⟨r, _, _, heq⟩ <;> rw [heq] <;> exact hcd
  | release w0 =>
    rcases step_release_cases s w0 with heq | ⟨_, heq⟩
    · rw [heq]
      exact hcd
    · rw [heq]
      exact le_trans (Nat.sub_le _ _) hcd
  | setMax n =>
    rw [step_setMax_eq]
    exact le_trans hcd (hshrink n rfl)
  | setChunk mb => exact hcd

theorem run_inv (evts : List Ev) : ∀ s : Ctrl, Inv s → Inv (run s evts) := by
  induction evts with
  | nil => intro s h; exact h
  | cons e rest ih =>
    intro s h
    rw [run_cons]
    exact ih (step s e) (step_inv s e h)

theorem run_inv_le (evts : List Ev) : ∀ s : Ctrl, Inv s →
    s.current_downloads ≤ s.max_concurrent →
    noShrink s.max_concurrent evts = true →
    Inv (run s evts) ∧ (run s evts).current_downloads ≤ (run s evts).max_concurrent := by
  induction evts with
  | nil =>
    intro s h1 h2 _
    exact ⟨h1, h2⟩
  | cons e rest ih =>
    intro s h1 h2 hns
    have hsplit : noShrink (step s e).max_concurrent rest = true
        ∧ (∀ n : Nat, e = .setMax n → s.max_concurrent ≤ max 1 n) := by
      cases e with
      | setMax n =>
        simp only [noShrink, Bool.and_eq_true] at hns
        constructor
        · rw [show (step s (.setMax n)).max_concurrent = max 1 n from by rw [step_setMax_eq]]
          exact hns.2
        · intro n2 he
          cases he
          exact of_decide_eq_true hns.1
      | enqueue id ex =>
        refine ⟨?_, by intro n hcon; cases hcon⟩
        rw [step_mc_eq s _ (by intro n hcon; cases hcon)]
        exact hns
      | cancel id =>
        refine ⟨?_, by intro n hcon; cases hcon⟩
        rw [step_mc_eq s _ (by intro n hcon; cases hcon)]
        exact hns
      | dequeue w0 =>
        refine ⟨?_, by intro n hcon; cases hcon⟩
        rw [step_mc_eq s _ (by intro n hcon; cases hcon)]
        exact hns
      | acquire w0 =>
        refine ⟨?_, by intro n hcon; cases hcon⟩
        rw [step_mc_eq s _ (by intro n hcon; cases hcon)]
        exact hns
      | finishOk w0 =>
        refine ⟨?_, by intro n hcon; cases hcon⟩
        rw [step_mc_eq s _ (by intro n hcon; cases hcon)]
        exact hns
      | finishErr w0 g =>
        refine ⟨?_, by intro n hcon; cases hcon⟩
        rw [step_mc_eq s _ (by intro n hcon; cases hcon)]
        exact hns
      | finishCancel w0 =>
        refine ⟨?_, by intro n hcon; cases hcon⟩
        rw [step_mc_eq s _ (by intro n hcon; cases hcon)]
        exact hns
      | release w0 =>
        refine ⟨?_, by intro n hcon; cases hcon⟩
        rw [step_mc_eq s _ (by intro n hcon; cases hcon)]
        exact hns
      | setChunk mb =>
        refine ⟨?_, by intro n hcon; cases hcon⟩
        rw [step_mc_eq s _ (by intro n hcon; cases hcon)]
        exact hns
    rw [run_cons]
    exact ih (step s e) (step_inv s e h1) (step_cd_le s e h2 hsplit.2) hsplit.1

/-- C1 (amended): the number of items simultaneously Downloading never
exceeds the number of held concurrency slots, and _acquire_slot only takes a
slot while current_downloads < max_concurrent; consequently, for every
sequence of operations in which set_max_concurrent is never called with a
(sanitized) value below the current maxConcurrent, at most maxConcurrent
items are ever Downloading simultaneously.  (The claim as stated fails once
a downward resize is allowed, since in-flight transfers are not
pre-empted.) -/
theorem c1_downloading_bounded (m : Nat) (c : ℚ) (evts : List Ev)
    (hns : noShrink (max 1 m) evts = true) :
    downloadingCount (run (initCtrl m c) evts) ≤ (run (initCtrl m c) evts).max_concurrent := by
  have h0 : Inv (initCtrl m c) := inv_init m c
  have h1 : (initCtrl m c).current_downloads ≤ (initCtrl m c).max_concurrent :=
    Nat.zero_le _
  obtain ⟨hinv, hle⟩ := run_inv_le evts (initCtrl m c) h0 h1 hns
  exact le_trans (inv_downloading_le_cd _ hinv) hle

/-- C1 witness: a shrink-free concrete run respects the bound. -/
theorem c1_witness :
    downloadingCount (run (initCtrl 2 1) [.enqueue "a" false, .dequeue 0, .acquire 0])
      ≤ (run (initCtrl 2 1) [.enqueue "a" false, .dequeue 0, .acquire 0]).max_concurrent :=
  c1_downloading_bounded 2 1 [.enqueue "a" false, .dequeue 0, .acquire 0] (by decide)

/-! ## C4: preservation of terminal states -/

/-- C4 (amended): once an item is Completed, Failed or Cancelled, no worker
step, cancel, resize or chunk-size change — no operation other than a
re-enqueue of the same identifier — ever changes its state; but enqueue of
an identifier whose destination file exists overwrites the registered item's
state with AlreadyExists even from Failed or Cancelled, so the terminal
states are not absorbing under re-enqueue. -/
theorem c4_terminal_preserved (m : Nat) (c : ℚ) (evts : List Ev) (e : Ev) (r : Nat)
    (st : Status)
    (hne : isEnqueue e = false)
    (hterm : statusOf (run (initCtrl m c) evts) r = some st)
    (h3 : st = .concluido ∨ st = .erro ∨ st = .cancelado) :
    statusOf (step (run (initCtrl m c) evts) e) r = some st := by
  have hinv : Inv (run (initCtrl m c) evts) := run_inv evts (initCtrl m c) (inv_init m c)
  generalize hs : run (initCtrl m c) evts = s at hterm hinv
  have hstne : st ≠ .naFila ∧ st ≠ .jaExiste ∧ st ≠ .baixando := by
    rcases h3 with h | h | h <;> subst h <;> exact ⟨by simp, by simp, by simp⟩
  cases e with
  | enqueue id ex => cases hne
  | cancel id =>
    rw [step_cancel_eq]
    exact hterm
  | setChunk mb =>
    rw [step_setChunk_eq]
    exact hterm
  | setMax n =>
    rw [step_setMax_eq]
    exact hterm
  | dequeue w0 =>
    rcases step_dequeue_cases s w0 with heq | ⟨r0, rest, o, _, _, _, _, heq⟩
      | ⟨r0, rest, o, _, _, _, _, heq⟩ <;> rw [heq] <;> exact hterm
  | release w0 =>
    rcases step_release_cases s w0 with heq | ⟨_, heq⟩ <;> rw [heq] <;> exact hterm
  | acquire w0 =>
    rcases step_acquire_cases s w0 with heq | ⟨r0, hwk, hlt, heq⟩
    · rw [heq]
      exact hterm
    · rw [heq]
      have hr0ne : r ≠ r0 := by
        intro hcon
        rcases hinv.holding_status w0 r0 hwk with hst2 | hst2 <;>
        · rw [← hcon, hterm] at hst2
          simp at hst2
          first
            | exact hstne.1 hst2
            | exact hstne.2.1 hst2
      simp only [statusOf_mk, setStatus_statusAt]
      rw [if_neg (by intro hx; exact hr0ne hx.1)]
      exact hterm
  | finishOk w0 =>
    rcases step_finishOk_cases s w0 with heq | ⟨r0, hwk, heq⟩
    · rw [heq]
      exact hterm
    · rw [heq]
      have hr0ne : r ≠ r0 := by
        intro hcon
        rcases hinv.running_status w0 r0 hwk with hst2 | hst2 <;>
        · rw [← hcon, hterm] at hst2
          simp at hst2
          first
            | exact hstne.2.2 hst2
            | exact hstne.2.1 hst2
      simp only [statusOf_mk, setStatus_statusAt]
      rw [if_neg (by intro hx; exact hr0ne hx.1)]
      exact hterm
  | finishErr w0 g =>
    rcases step_finishErr_cases s w0 g with heq | ⟨r0, hwk, heq⟩
    · rw [heq]
      exact hterm
    · rw [heq]
      have hr0ne : r ≠ r0 := by
        intro hcon
        rcases hinv.running_status w0 r0 hwk with hst2 | hst2 <;>
        · rw [← hcon, hterm] at hst2
          simp at hst2
          first
            | exact hstne.2.2 hst2
            | exact hstne.2.1 hst2
      simp only [statusOf_mk, setStatus_statusAt]
      rw [if_neg (by intro hx; exact hr0ne hx.1)]
      exact hterm
  | finishCancel w0 =>
    rcases step_finishCancel_cases s w0 with heq | ⟨r0, hwk, hc, heq⟩
    · rw [heq]
      exact hterm
    · rw [heq]
      have hr0ne : r ≠ r0 := by
        intro hcon
        rcases hinv.running_status w0 r0 hwk with hst2 | hst2 <;>
        · rw [← hcon, hterm] at hst2
          simp at hst2
          first
            | exact hstne.2.2 hst2
            | exact hstne.2.1 hst2
      simp only [statusOf_mk, setStatus_statusAt]
      rw [if_neg (by intro hx; exact hr0ne hx.1)]
      exact hterm

/-- C4 witness: a cancel call leaves a Failed item Failed. -/
theorem c4_witness :
    statusOf (step (run (initCtrl 1 1) [.enqueue "x" false, .dequeue 0, .acquire 0,
        .finishErr 0 true, .release 0]) (.cancel "y")) 0 = some .erro :=
  c4_terminal_preserved 1 1 [.enqueue "x" false, .dequeue 0, .acquire 0,
      .finishErr 0 true, .release 0] (.cancel "y") 0 .erro rfl (by decide)
    (Or.inr (Or.inl rfl))

end JellyGrab
